import Mathlib

/-! ekago: stack traces, the field encoder and error classes.

A shallow embedding of

* `ekasys/stacktrace.go` (`getStackFramePoints`, `GetStackTrace`,
  `GetStackTrace2`, `StackTrace.ExcludeInternal`),
* `ekalog/entry_private.go` (`Entry.clone`, `Entry.addStacktrace`),
* `internal/ekaletter/letter_item_private.go` (`LetterItem.addImplicitField`,
  `LetterItem.addExplicitField2`, `LetterItem.addExplicitFieldByPtr`),
* the error class registry of `ekaerr` as far as `error_test.go` exercises it,

followed by the theorems proved about them. The packages `ekafield` and
`ekaclike` and the code of `ekaerr` are not among the sources; what the
encoder and the tests use of them is modelled from the spec, and each such
definition says so.

Conventions. Go slices are lists. A Go operation that can panic (an index or
a slice bound out of range) returns `Option`, with `none` for the panic.
Floating-point and complex numbers are carried as their bit patterns: the
encoder only copies them and compares them with zero. Go's `int` is the 64 bit
one: a value is an `Int`, and the additions to `skip` in the capturer wrap
around as `wrapInt` says. `make` panics for a length above the largest one the
platform grants, `CallStack.maxLen`.
-/

set_option autoImplicit false

namespace Ekago

/-! ## Definitions -/

/-! ### ekasys: stack frames and traces -/

/-- One level of a captured call stack (`StackFrame`, which embeds
`runtime.Frame`): program counter, function name, file, line, entry address
and the memoized formatted line. -/
structure StackFrame where
  PC : Nat
  Function : String
  File : String
  Line : Int
  Entry : Nat
  Format : String
  deriving DecidableEq, Repr

/-- `type StackTrace []StackFrame`. -/
abbrev StackTrace := List StackFrame

/-- Go's `strings.HasPrefix(s, p)`. -/
def HasPrefix (s p : String) : Bool := p.data.isPrefixOf s.data

/-- The loop of `ExcludeInternal`,
`for continue_ := true; continue_; idx-- { continue_ = idx > 0 && (...) }`,
started at `idx`; the result is the value of `idx` when the loop is left.
`none` when `s[idx]` is read out of range, or when the fuel ends first. -/
def ExcludeInternal.loop (s : StackTrace) : Nat → Int → Option Int
  | 0, _ => none
  | fuel + 1, idx =>
    if 0 < idx then
      match s[idx.toNat]? with
      | none => none
      | some frame =>
        if HasPrefix frame.Function "runtime." || HasPrefix frame.Function "testing." then
          ExcludeInternal.loop s fuel (idx - 1)
        else some (idx - 1)
    else some (idx - 1)

/-- `func (s StackTrace) ExcludeInternal() StackTrace`: `idx := len(s) - 1`,
the loop, then `return s[:idx+2]` (checked against the length). -/
def ExcludeInternal (s : StackTrace) : Option StackTrace :=
  match ExcludeInternal.loop s (s.length + 1) ((s.length : Int) - 1) with
  | none => none
  | some idx =>
    if 0 ≤ idx + 2 ∧ idx + 2 ≤ (s.length : Int) then some (s.take (idx + 2).toNat) else none

/-- The test of the loop of `ExcludeInternal` on one frame: the function name
starts with `runtime.` or with `testing.`. -/
def StackFrame.isInternal (frame : StackFrame) : Bool :=
  HasPrefix frame.Function "runtime." || HasPrefix frame.Function "testing."

/-- A frame of the function `function`, for the traces of the examples. -/
def frameOf (pc : Nat) (function : String) : StackFrame := ⟨pc, function, "", 0, 0, ""⟩

/-- A trace with an internal frame inside and a run of internal frames at the
end: a panic under a test. -/
def panicTrace : StackTrace :=
  [frameOf 1 "main.inner", frameOf 2 "runtime.gopanic", frameOf 3 "main.outer",
   frameOf 4 "testing.tRunner", frameOf 5 "runtime.goexit"]

/-- A trace that starts at the capturer itself, as `GetStackTrace(-3, -1)`
returns it in `TestGetStackTraceCommonDepthAbsolutelyFull`. -/
def fullTrace : StackTrace :=
  [frameOf 1 "runtime.Callers", frameOf 2 "ekasys.getStackFramePoints",
   frameOf 3 "ekasys.GetStackTrace", frameOf 4 "main.main", frameOf 5 "runtime.main",
   frameOf 6 "runtime.goexit"]

/-! ### Go values as the encoder sees them -/

/-- The kinds of Go's `reflect` package, the results of `typ.Kind()`. -/
inductive Kind where
  | Invalid | Bool | Int | Int8 | Int16 | Int32 | Int64
  | Uint | Uint8 | Uint16 | Uint32 | Uint64 | Uintptr
  | Float32 | Float64 | Complex64 | Complex128
  | Array | Chan | Func | Interface | Map | Ptr | Slice | String | Struct
  | UnsafePointer
  deriving DecidableEq, Repr

/-- What a Go value that is not a pointer holds, by kind. Signed integers are
`Int`, unsigned ones and addresses `Nat`, floats their bit pattern, complex
numbers the bit patterns of both parts. The contents of the composite kinds
are never read by the encoder and are left out. -/
inductive Payload where
  | bool (b : Bool)
  | int (v : Int) | int8 (v : Int) | int16 (v : Int) | int32 (v : Int) | int64 (v : Int)
  | uint (v : Nat) | uint8 (v : Nat) | uint16 (v : Nat) | uint32 (v : Nat) | uint64 (v : Nat)
  | uintptr (a : Nat)
  | float32 (bits : Nat) | float64 (bits : Nat)
  | complex64 (re im : Nat) | complex128 (re im : Nat)
  | string (s : String)
  | unsafePointer (a : Nat)
  | array | chan | func | map | slice | struct
  deriving DecidableEq, Repr

/-- A Go `interface{}` value together with what the encoder can learn of its
dynamic type.

* `nil`: the nil interface;
* `time t`: a `time.Time` (`t = 0` is the zero `time.Time{}`);
* `duration d`: a `time.Duration`;
* `data text p`: a value of any other type that is not a pointer, `text` being
  `some (value.String())` when that type implements `fmt.Stringer`;
* `ptr text addr pointee`: a pointer with address `addr` (`0` for a typed nil
  pointer) to `pointee`, `text` as for `data`. -/
inductive Value where
  | nil
  | time (t : Int)
  | duration (d : Int)
  | data (text : Option String) (p : Payload)
  | ptr (text : Option String) (addr : Nat) (pointee : Value)
  deriving DecidableEq, Repr

/-- The identity of a type as far as `addImplicitField` compares types. -/
inductive TypeIdent where
  | timeTime | timeDuration | other
  deriving DecidableEq, Repr

/-- A `reflect2.Type` as `addImplicitField` uses it: its identity (for `==`),
`typ.Kind()` and `typ.Implements(ekafield.ReflectedTypeFmtStringer)`. -/
structure RType where
  ident : TypeIdent
  kind : Kind
  implementsStringer : Bool
  deriving DecidableEq, Repr

/-- `reflectedTimeTime = reflect2.TypeOf(time.Time{})`. -/
def reflectedTimeTime : RType := ⟨.timeTime, .Struct, true⟩

/-- `reflectedTimeDuration = reflect2.TypeOf(time.Duration(0))`. -/
def reflectedTimeDuration : RType := ⟨.timeDuration, .Int64, true⟩

/-- The `reflect.Kind` of a payload. -/
def Payload.kind : Payload → Kind
  | .bool _ => .Bool
  | .int _ => .Int | .int8 _ => .Int8 | .int16 _ => .Int16 | .int32 _ => .Int32
  | .int64 _ => .Int64
  | .uint _ => .Uint | .uint8 _ => .Uint8 | .uint16 _ => .Uint16 | .uint32 _ => .Uint32
  | .uint64 _ => .Uint64
  | .uintptr _ => .Uintptr
  | .float32 _ => .Float32 | .float64 _ => .Float64
  | .complex64 _ _ => .Complex64 | .complex128 _ _ => .Complex128
  | .string _ => .String
  | .unsafePointer _ => .UnsafePointer
  | .array => .Array | .chan => .Chan | .func => .Func | .map => .Map
  | .slice => .Slice | .struct => .Struct

/-- `reflect2.TypeOf(value)`; for the nil interface Go returns the nil type,
which the encoder never inspects. -/
def TypeOf : Value → RType
  | .nil => ⟨.other, .Invalid, false⟩
  | .time _ => reflectedTimeTime
  | .duration _ => reflectedTimeDuration
  | .data text p => ⟨.other, p.kind, text.isSome⟩
  | .ptr text _ _ => ⟨.other, .Ptr, text.isSome⟩

/-- The `time.Time` read from a value by `typ.UnsafeSet`. -/
def Value.asTime : Value → Int
  | .time t => t
  | _ => 0

/-- The `time.Duration` read from a value by `typ.UnsafeSet`. -/
def Value.asDuration : Value → Int
  | .duration d => d
  | _ => 0

/-- The `bool` read from a value by `typ.UnsafeSet`. -/
def Value.asBool : Value → Bool
  | .data _ (.bool b) => b
  | _ => false

/-- The signed integer read from a value by `typ.UnsafeSet`. -/
def Value.asInt : Value → Int
  | .data _ (.int v) => v
  | .data _ (.int8 v) => v
  | .data _ (.int16 v) => v
  | .data _ (.int32 v) => v
  | .data _ (.int64 v) => v
  | .duration d => d
  | _ => 0

/-- The unsigned integer read from a value by `typ.UnsafeSet`. -/
def Value.asUint : Value → Nat
  | .data _ (.uint v) => v
  | .data _ (.uint8 v) => v
  | .data _ (.uint16 v) => v
  | .data _ (.uint32 v) => v
  | .data _ (.uint64 v) => v
  | _ => 0

/-- The float (its bit pattern) read from a value by `typ.UnsafeSet`. -/
def Value.asFloat : Value → Nat
  | .data _ (.float32 bits) => bits
  | .data _ (.float64 bits) => bits
  | _ => 0

/-- The complex number (the bit patterns of its parts) read from a value by
`typ.UnsafeSet`. -/
def Value.asComplex : Value → Nat × Nat
  | .data _ (.complex64 re im) => (re, im)
  | .data _ (.complex128 re im) => (re, im)
  | _ => (0, 0)

/-- The `string` read from a value by `typ.UnsafeSet`. -/
def Value.asString : Value → String
  | .data _ (.string s) => s
  | _ => ""

/-- The text of `value.(fmt.Stringer).String()`. -/
def Value.stringerText : Value → String
  | .data (some text) _ => text
  | .ptr (some text) _ _ => text
  | _ => ""

/-- Modelled from the spec: `ekaclike.TakeRealAddr`, whose code is not among
the sources; "the underlying address" of a pointer value, `0` standing for
nil. -/
def TakeRealAddr : Value → Nat
  | .ptr _ addr _ => addr
  | _ => 0

/-- The address a value of kind pointer, `uintptr` or `unsafe.Pointer` holds. -/
def Value.address : Value → Nat
  | .ptr _ addr _ => addr
  | .data _ (.uintptr a) => a
  | .data _ (.unsafePointer a) => a
  | _ => 0

/-! ### ekafield: fields -/

/-- Modelled from the spec: the base kinds of a `Field` (`KIND_TYPE_*` of the
package ekafield, whose code is not among the sources). They are the tags the
spec lists, one per constructor the encoder calls. -/
inductive FieldKind where
  | Invalid | Bool | Int | Int8 | Int16 | Int32 | Int64
  | Uint8 | Uint16 | Uint32 | Uint64
  | Float32 | Float64 | Complex64 | Complex128
  | String | Time | Duration | Addr | Stringer
  deriving DecidableEq, Repr

/-- Modelled from the spec: what a `Field` holds, "a tagged union over bool,
signed/unsigned integers of multiple widths, floats, complex numbers, string,
timestamp, duration, raw address, text-rendered value, invalid/null".
`invalid` is the tag of the zero `Field{}`; `null baseType` is the explicit
null that `NilValue` builds. -/
inductive FieldValue where
  | invalid
  | null (baseType : FieldKind)
  | bool (b : Bool)
  | int (v : Int) | int8 (v : Int) | int16 (v : Int) | int32 (v : Int) | int64 (v : Int)
  | uint8 (v : Nat) | uint16 (v : Nat) | uint32 (v : Nat) | uint64 (v : Nat)
  | float32 (bits : Nat) | float64 (bits : Nat)
  | complex64 (re im : Nat) | complex128 (re im : Nat)
  | string (s : String)
  | time (t : Int)
  | duration (d : Int)
  | addr (a : Nat)
  | stringer (text : String)
  deriving DecidableEq, Repr

/-- Modelled from the spec: `ekafield.Field`, a tagged value keyed by name. -/
structure Field where
  Key : String
  Value : FieldValue
  deriving DecidableEq, Repr

/-- The base kind of a field. -/
def Field.Kind (f : Field) : FieldKind :=
  match f.Value with
  | .invalid => .Invalid
  | .null baseType => baseType
  | .bool _ => .Bool
  | .int _ => .Int | .int8 _ => .Int8 | .int16 _ => .Int16 | .int32 _ => .Int32
  | .int64 _ => .Int64
  | .uint8 _ => .Uint8 | .uint16 _ => .Uint16 | .uint32 _ => .Uint32 | .uint64 _ => .Uint64
  | .float32 _ => .Float32 | .float64 _ => .Float64
  | .complex64 _ _ => .Complex64 | .complex128 _ _ => .Complex128
  | .string _ => .String
  | .time _ => .Time
  | .duration _ => .Duration
  | .addr _ => .Addr
  | .stringer _ => .Stringer

/-- Modelled from the spec: `Field.IsZero` of the package ekafield, "its encoded
value equals the tag's zero value". The key plays no part. A field without a
value (the zero `Field{}`, an explicit null) counts as zero. -/
def Field.IsZero (f : Field) : Bool :=
  match f.Value with
  | .invalid => true
  | .null _ => true
  | .bool b => b == false
  | .int v => v == 0 | .int8 v => v == 0 | .int16 v => v == 0 | .int32 v => v == 0
  | .int64 v => v == 0
  | .uint8 v => v == 0 | .uint16 v => v == 0 | .uint32 v => v == 0 | .uint64 v => v == 0
  | .float32 bits => bits == 0 | .float64 bits => bits == 0
  | .complex64 re im => re == 0 && im == 0 | .complex128 re im => re == 0 && im == 0
  | .string s => s == ""
  | .time t => t == 0
  | .duration d => d == 0
  | .addr a => a == 0
  | .stringer text => text == ""

/-- Modelled from the spec: the zero value of `Field`, as `var f ekafield.Field`
leaves it: no key and the invalid tag. -/
def Field.zero : Field := ⟨"", .invalid⟩

/-- Modelled from the spec: `ekafield.KIND_TYPE_INVALID`. -/
def KIND_TYPE_INVALID : FieldKind := .Invalid

/-- Modelled from the spec: `ekafield.NilValue(key, baseType)`, the explicit null
field. -/
def ekafield.NilValue (key : String) (baseType : FieldKind) : Field := ⟨key, .null baseType⟩

/-- Modelled from the spec: `ekafield.Time(key, value)`. -/
def ekafield.Time (key : String) (value : Int) : Field := ⟨key, .time value⟩

/-- Modelled from the spec: `ekafield.Duration(key, value)`. -/
def ekafield.Duration (key : String) (value : Int) : Field := ⟨key, .duration value⟩

/-- Modelled from the spec: `ekafield.Stringer(key, value)`, the text-rendered
field, holding what the `String` method of the value answers. -/
def ekafield.Stringer (key : String) (value : Value) : Field :=
  ⟨key, .stringer value.stringerText⟩

/-- Modelled from the spec: `ekafield.Addr(key, value)`, the raw address field. -/
def ekafield.Addr (key : String) (value : Value) : Field := ⟨key, .addr value.address⟩

/-- Modelled from the spec: `ekafield.Int8(key, value)`. -/
def ekafield.Int8 (key : String) (value : Int) : Field := ⟨key, .int8 value⟩

/-- Modelled from the spec: `ekafield.Int16(key, value)`. -/
def ekafield.Int16 (key : String) (value : Int) : Field := ⟨key, .int16 value⟩

/-- Modelled from the spec: `ekafield.Int32(key, value)`. -/
def ekafield.Int32 (key : String) (value : Int) : Field := ⟨key, .int32 value⟩

/-- Modelled from the spec: `ekafield.Int64(key, value)`. -/
def ekafield.Int64 (key : String) (value : Int) : Field := ⟨key, .int64 value⟩

/-- Modelled from the spec: `ekafield.Int(key, value)`. -/
def ekafield.Int (key : String) (value : Int) : Field := ⟨key, .int value⟩

/-- Modelled from the spec: `ekafield.Uint8(key, value)`. -/
def ekafield.Uint8 (key : String) (value : Nat) : Field := ⟨key, .uint8 value⟩

/-- Modelled from the spec: `ekafield.Uint16(key, value)`. -/
def ekafield.Uint16 (key : String) (value : Nat) : Field := ⟨key, .uint16 value⟩

/-- Modelled from the spec: `ekafield.Uint32(key, value)`. -/
def ekafield.Uint32 (key : String) (value : Nat) : Field := ⟨key, .uint32 value⟩

/-- Modelled from the spec: `ekafield.Uint64(key, value)`. -/
def ekafield.Uint64 (key : String) (value : Nat) : Field := ⟨key, .uint64 value⟩

/-- Modelled from the spec: `ekafield.Float32(key, value)`. -/
def ekafield.Float32 (key : String) (value : Nat) : Field := ⟨key, .float32 value⟩

/-- Modelled from the spec: `ekafield.Float64(key, value)`. -/
def ekafield.Float64 (key : String) (value : Nat) : Field := ⟨key, .float64 value⟩

/-- Modelled from the spec: `ekafield.Complex64(key, value)`. -/
def ekafield.Complex64 (key : String) (value : Nat × Nat) : Field :=
  ⟨key, .complex64 value.1 value.2⟩

/-- Modelled from the spec: `ekafield.Complex128(key, value)`. -/
def ekafield.Complex128 (key : String) (value : Nat × Nat) : Field :=
  ⟨key, .complex128 value.1 value.2⟩

/-- Modelled from the spec: `ekafield.Bool(key, value)`. -/
def ekafield.Bool (key : String) (value : Bool) : Field := ⟨key, .bool value⟩

/-- Modelled from the spec: `ekafield.String(key, value)`. -/
def ekafield.String (key : String) (value : String) : Field := ⟨key, .string value⟩

/-! ### ekaletter: the field container -/

/-- `LetterItem`: the ordered fields and the flags bitset. -/
structure LetterItem where
  Fields : List Field
  Flags : Nat
  deriving DecidableEq, Repr

/-- `Flag.TestAll(mask)`: all bits of `mask` are set. -/
def TestAll (flags mask : Nat) : Bool := flags &&& mask == mask

/-- Modelled from the spec: the flag "whether raw pointers may be logged
as-is"; its declaration is not among the sources, it is taken to be one bit. -/
def FLAG_ALLOW_IMPLICIT_POINTERS : Nat := 2

/-- The code at the label `recognizer:` of `addImplicitField`:
`if !(varyField && f.IsZero()) { li.Fields = append(li.Fields, f) }`. -/
def recognizer (li : LetterItem) (varyField : Bool) (f : Field) : LetterItem :=
  if !(varyField && f.IsZero) then { li with Fields := li.Fields ++ [f] } else li

/-- The body of `func (li *LetterItem) addImplicitField(name string, value
interface{}, typ reflect2.Type)`, returning the container after the call.
`indirect name` stands for the container after the recursive call
`li.addImplicitField(name, typ.Indirect(value), reflect2.TypeOf(value))`.

The cases of the first `switch` are the `if` chain, in order; the second
`switch typ.Kind()` is the `match`. What `typ.UnsafeSet` copies out of the
value is read by `Value.asBool`, `Value.asInt` and so on. In the pointer case
the recursive call is followed by the fall through to `recognizer:` with `f`
still the zero `Field`, as in the source. -/
def addImplicitField.body (indirect : String → LetterItem) (li : LetterItem) (name : String)
    (value : Value) (typ : RType) : LetterItem :=
  let varyField : Bool := name != "" && name.data.getLast? == some '?'
  let name : String := if varyField then ⟨name.data.dropLast⟩ else name
  if value = .nil ∧ varyField then
    li
  else if value = .nil then
    { li with Fields := li.Fields ++ [ekafield.NilValue name KIND_TYPE_INVALID] }
  else if typ = reflectedTimeTime then
    recognizer li varyField (ekafield.Time name value.asTime)
  else if typ = reflectedTimeDuration then
    recognizer li varyField (ekafield.Duration name value.asDuration)
  else if typ.implementsStringer then
    recognizer li varyField (ekafield.Stringer name value)
  else
    match typ.kind with
    | .Ptr =>
      let logPtrAsIs : Bool :=
        TestAll li.Flags FLAG_ALLOW_IMPLICIT_POINTERS || TakeRealAddr value == 0
      if logPtrAsIs then
        recognizer li varyField (ekafield.Addr name value)
      else
        recognizer (indirect name) varyField Field.zero
    | .Bool => recognizer li varyField (ekafield.Bool name value.asBool)
    | .Int => recognizer li varyField (ekafield.Int name value.asInt)
    | .Int8 => recognizer li varyField (ekafield.Int8 name value.asInt)
    | .Int16 => recognizer li varyField (ekafield.Int16 name value.asInt)
    | .Int32 => recognizer li varyField (ekafield.Int32 name value.asInt)
    | .Int64 => recognizer li varyField (ekafield.Int64 name value.asInt)
    | .Uint => recognizer li varyField (ekafield.Uint64 name value.asUint)
    | .Uint8 => recognizer li varyField (ekafield.Uint8 name value.asUint)
    | .Uint16 => recognizer li varyField (ekafield.Uint16 name value.asUint)
    | .Uint32 => recognizer li varyField (ekafield.Uint32 name value.asUint)
    | .Uint64 => recognizer li varyField (ekafield.Uint64 name value.asUint)
    | .Float32 => recognizer li varyField (ekafield.Float32 name value.asFloat)
    | .Float64 => recognizer li varyField (ekafield.Float64 name value.asFloat)
    | .Complex64 => recognizer li varyField (ekafield.Complex64 name value.asComplex)
    | .Complex128 => recognizer li varyField (ekafield.Complex128 name value.asComplex)
    | .String => recognizer li varyField (ekafield.String name value.asString)
    | .Uintptr => recognizer li varyField (ekafield.Addr name value)
    | .UnsafePointer => recognizer li varyField (ekafield.Addr name value)
    | _ => recognizer li varyField Field.zero

/-- `func (li *LetterItem) addImplicitField(name string, value interface{},
typ reflect2.Type)`: the body, with the recursive call on the pointee of a
pointer. A value that is not a pointer has no pointee, and the body never asks
for one (`TakeRealAddr` is then nil). -/
def addImplicitField (li : LetterItem) (name : String) : Value → RType → LetterItem
  | .ptr text addr pointee, typ =>
    addImplicitField.body (fun name => addImplicitField li name pointee (TypeOf pointee))
      li name (.ptr text addr pointee) typ
  | value, typ => addImplicitField.body (fun _ => li) li name value typ

/-- `func (li *LetterItem) addExplicitField2(f ekafield.Field)`. -/
def addExplicitField2 (li : LetterItem) (f : Field) : LetterItem :=
  let varyField : Bool := f.Key != "" && f.Key.data.getLast? == some '?'
  let f : Field := if varyField then { f with Key := ⟨f.Key.data.dropLast⟩ } else f
  if !(varyField && f.IsZero) then { li with Fields := li.Fields ++ [f] } else li

/-- `func (li *LetterItem) addExplicitFieldByPtr(f *ekafield.Field)`; the
pointer is `none` when nil. -/
def addExplicitFieldByPtr (li : LetterItem) (f : Option Field) : LetterItem :=
  match f with
  | some f => addExplicitField2 li f
  | none => li

/-! ### Notions the statements about the encoder use -/

/-- The name ends in `?`: it names a "vary" field. -/
def endsWithQuestion (name : String) : Bool := name.data.getLast? == some '?'

/-- The name with one trailing `?` removed; a name that does not end in `?`
is left as it is. -/
def trimQuestion (name : String) : String :=
  if endsWithQuestion name then ⟨name.data.dropLast⟩ else name

/-- The container with one more field at the end. -/
def LetterItem.append (li : LetterItem) (f : Field) : LetterItem :=
  { li with Fields := li.Fields ++ [f] }

/-- The primitive kinds: bool, the signed and unsigned integers of every
width, the floats, the complex numbers and string. -/
def Payload.isPrimitive : Payload → Bool
  | .bool _ => true
  | .int _ => true | .int8 _ => true | .int16 _ => true | .int32 _ => true | .int64 _ => true
  | .uint _ => true | .uint8 _ => true | .uint16 _ => true | .uint32 _ => true
  | .uint64 _ => true
  | .float32 _ => true | .float64 _ => true
  | .complex64 _ _ => true | .complex128 _ _ => true
  | .string _ => true
  | _ => false

/-- The kinds the second `switch` has no case for: struct, slice, array, map,
chan and func. -/
def Payload.isUnsupported : Payload → Bool
  | .array => true | .chan => true | .func => true | .map => true | .slice => true
  | .struct => true
  | _ => false

/-- The value is Go's zero value of its kind: `false`, `0`, `""`. -/
def Payload.isZeroValue : Payload → Bool
  | .bool b => !b
  | .int v => v == 0 | .int8 v => v == 0 | .int16 v => v == 0 | .int32 v => v == 0
  | .int64 v => v == 0
  | .uint v => v == 0 | .uint8 v => v == 0 | .uint16 v => v == 0 | .uint32 v => v == 0
  | .uint64 v => v == 0
  | .uintptr a => a == 0
  | .float32 bits => bits == 0 | .float64 bits => bits == 0
  | .complex64 re im => re == 0 && im == 0 | .complex128 re im => re == 0 && im == 0
  | .string s => s == ""
  | .unsafePointer a => a == 0
  | _ => false

/-- The field value of the kind matching a primitive value, holding that
value. Go's `uint` is held by the 64 bit unsigned field. -/
def Payload.fieldValue : Payload → FieldValue
  | .bool b => .bool b
  | .int v => .int v | .int8 v => .int8 v | .int16 v => .int16 v | .int32 v => .int32 v
  | .int64 v => .int64 v
  | .uint v => .uint64 v | .uint8 v => .uint8 v | .uint16 v => .uint16 v
  | .uint32 v => .uint32 v | .uint64 v => .uint64 v
  | .float32 bits => .float32 bits | .float64 bits => .float64 bits
  | .complex64 re im => .complex64 re im | .complex128 re im => .complex128 re im
  | .string s => .string s
  | _ => .invalid

/-! ### ekaerr: error classes -/

/-- Modelled from the spec: an error class of the package ekaerr, whose code
is not among the sources (only `error_test.go` is): "id, name, optional parent
id". -/
structure Class where
  id : Nat
  parentID : Option Nat
  name : String
  deriving DecidableEq, Repr

/-- Modelled from the spec: the registry of error classes, in order of
creation; the class with id `i` is the entry at index `i`. -/
abbrev Registry := List Class

/-- Modelled from the spec: "class creation registers a name and optional
parent, returning a handle". The new class takes the next free id. -/
def newClass (reg : Registry) (parentID : Option Nat) (name : String) : Registry × Class :=
  let cls : Class := ⟨reg.length, parentID, name⟩
  (reg ++ [cls], cls)

/-- Modelled from the spec: `Class.NewSubClass(name)`, the creation of a class
whose parent is the receiver. -/
def Class.NewSubClass (reg : Registry) (c : Class) (name : String) : Registry × Class :=
  newClass reg (some c.id) name

/-- Modelled from the spec: an `Error` as far as class queries go, its current
class and the messages of its frame annotations. -/
structure Error where
  classID : Nat
  messages : List String
  deriving DecidableEq, Repr

/-- Modelled from the spec: `Class.New(message)`, an error of the class with
one frame annotation holding the message. -/
def Class.New (c : Class) (message : String) : Error := ⟨c.id, [message]⟩

/-- Modelled from the spec: `Error.Is(class)`, "exact-class equality". -/
def Error.Is (e : Error) (cls : Class) : Bool := e.classID == cls.id

/-- Modelled from the spec: the walk of `IsAnyDeep` from the class `id` up its
ancestry, looking for `target`; one unit of fuel per class visited. -/
def IsAnyDeep.walk (reg : Registry) : Nat → Nat → Nat → Bool
  | 0, _, _ => false
  | fuel + 1, id, target =>
    if id == target then true
    else
      match reg[id]? with
      | none => false
      | some cls =>
        match cls.parentID with
        | none => false
        | some parent => IsAnyDeep.walk reg fuel parent target

/-- Modelled from the spec: `Error.IsAnyDeep(class)`, which "walks ancestry and
returns true on any match". A chain of ancestors has no more classes than the
registry, which is the fuel. -/
def Error.IsAnyDeep (reg : Registry) (e : Error) (cls : Class) : Bool :=
  IsAnyDeep.walk reg reg.length e.classID cls.id

/-- The registry is a forest built by `newClass`: every class sits at the index
of its id, and a parent is older than its child. -/
def Registry.WellFormed (reg : Registry) : Prop :=
  ∀ (i : Nat) (c : Class), reg[i]? = some c →
    c.id = i ∧ ∀ p : Nat, c.parentID = some p → p < i

/-- In `reg`, `IsAncestor reg a b`: the class with id `a` is a proper ancestor of
the class with id `b`. -/
inductive IsAncestor (reg : Registry) : Nat → Nat → Prop where
  | parent {a b : Nat} {c : Class} :
      reg[b]? = some c → c.parentID = some a → IsAncestor reg a b
  | step {a p b : Nat} {c : Class} :
      reg[b]? = some c → c.parentID = some p → IsAncestor reg a p → IsAncestor reg a b

/-- Modelled from the spec: the class `AlreadyExist`, one of the "pre-registered
built-in classes" that "act as roots". -/
def AlreadyExist : Class := ⟨0, none, "AlreadyExist"⟩

/-- Modelled from the spec: the built-in root class `NotFound`. -/
def NotFound : Class := ⟨1, none, "NotFound"⟩

/-- Modelled from the spec: the built-in root class `IllegalState`. -/
def IllegalState : Class := ⟨2, none, "IllegalState"⟩

/-- Modelled from the spec: the built-in root class `NotImplemented`. -/
def NotImplemented : Class := ⟨3, none, "NotImplemented"⟩

/-- Modelled from the spec: the registry before an application creates classes
of its own. -/
def builtinClasses : Registry := [AlreadyExist, NotFound, IllegalState, NotImplemented]

/-! ### ekasys: capturing the stack -/

/-- Go's `int` on a 64 bit platform: the largest value, `math.MaxInt64`. -/
def maxInt : Int := 2 ^ 63 - 1

/-- The result of an addition on Go's `int`: the integer wrapped around into
the range from `-2^63` to `2^63 - 1`, as Go does without a panic. -/
def wrapInt (x : Int) : Int := (x + 2 ^ 63) % 2 ^ 64 - 2 ^ 63

/-- The stack of the calling goroutine and the memory it lives in.

* `points`: the program points of the stack, innermost first; index 0 is
  `runtime.Callers` itself and index 1 its caller, as `runtime.Callers` counts
  them.
* `maxLen`: the largest length `make` grants a slice; for a longer one it
  panics. A length is an `int`, a slice of 128 points is granted, and the
  stack, which is in memory itself, has no more points than that. -/
structure CallStack where
  points : List Nat
  maxLen : Nat
  points_le : points.length ≤ maxLen
  maxLen_lt : maxLen < 2 ^ 63
  maxLen_ge : 128 ≤ maxLen

/-- The Go runtime as the capturer sees it.

* `stack`: the stack of the calling goroutine.
* `frameAt`: the frame `runtime.CallersFrames` yields for a program point.
* `funcName`, `fileOf`, `lineOf`, `entryOf`: `runtime.FuncForPC(pc)` with its
  `Name()`, `FileLine(pc)` and `Entry()`.
* `format`: the text of one formatted frame, which the spec leaves external. -/
structure Runtime where
  stack : CallStack
  frameAt : Nat → StackFrame
  funcName : Nat → String
  fileOf : Nat → String
  lineOf : Nat → Int
  entryOf : Nat → Nat
  format : StackFrame → String

/-- `runtime.Callers(skip, pc)` with a buffer `pc` of length `n`: the points it
writes, those of the stack past the first `skip`, `n` at most. The number Go
returns is the length of this list. A negative `skip` skips nothing. -/
def Callers (stack : List Nat) (skip : Int) (n : Nat) : List Nat :=
  (stack.drop skip.toNat).take n

/-- `baseFullStackFramePointsLen`: how many points are requested first. -/
def baseFullStackFramePointsLen : Nat := 32

/-- `maxFullStackFramePointsLen`: the most points requested. -/
def maxFullStackFramePointsLen : Nat := 128

/-- The loop of `getStackFramePoints`,
`for count = baseFullStackFramePointsLen; ; count <<= 1 { ... }`, entered with
the buffer length `count`. The result is the buffer lengths of the attempts
made, in order, and the points of the last attempt, `framePoints[:framePointsLen]`.
`none` when the fuel ends before the loop is left. -/
def getStackFramePoints.loop (stack : List Nat) (skip : Int) :
    Nat → Nat → Option (List Nat × List Nat)
  | 0, _ => none
  | fuel + 1, count =>
    let framePoints := Callers stack skip count
    if framePoints.length < count ∨ count = maxFullStackFramePointsLen then
      some ([count], framePoints)
    else
      match getStackFramePoints.loop stack skip fuel (count <<< 1) with
      | none => none
      | some (attempts, points) => some (count :: attempts, points)

/-- `func getStackFramePoints(skip, count int) (framePoints []uintptr)` on the
stack `stack`. `none` is a panic: the one of `make([]uintptr, count)` for a
`count` above the largest slice length, and the one of
`framePoints[:len(framePoints)-1]` when the bound is negative. `skip += 2` wraps
around. Three attempts are all the loop can make, so its fuel never ends. -/
def getStackFramePoints (stack : CallStack) (skip count : Int) : Option (List Nat) :=
  let skip : Int := if skip < -2 then -2 else skip
  let skip : Int := wrapInt (skip + 2)
  if count > 0 then
    if count ≤ (stack.maxLen : Int) then
      some (Callers stack.points skip count.toNat)
    else none
  else
    match getStackFramePoints.loop stack.points skip 3 baseFullStackFramePointsLen with
    | none => none
    | some (_, framePoints) =>
      if 0 ≤ (framePoints.length : Int) - 1 then
        some (framePoints.take ((framePoints.length : Int) - 1).toNat)
      else none

/-- The zero value of `StackFrame`. -/
def StackFrame.zero : StackFrame := ⟨0, "", "", 0, 0, ""⟩

/-- `runtime.CallersFrames(framePoints)`: the frames still to come, one for
each program point (calls the compiler inlined are not told apart). -/
def CallersFrames (rt : Runtime) (framePoints : List Nat) : List StackFrame :=
  framePoints.map rt.frameAt

/-- `frameIterator.Next()`: the next frame, whether more frames follow it,
and the iterator after the call. -/
def Frames.Next (frames : List StackFrame) : StackFrame × Bool × List StackFrame :=
  match frames with
  | [] => (StackFrame.zero, false, [])
  | frame :: rest => (frame, !rest.isEmpty, rest)

/-- The loop of `GetStackTrace`,
`for more := true; more && i < framePointsLen; i++ { stacktrace[i].Frame, more =
frameIterator.Next() }`, with `slots = framePointsLen - i` slots left; the
result is what the loop adds to `stacktrace[:i]`. -/
def GetStackTrace.loop : Nat → Bool → List StackFrame → StackTrace
  | 0, _, _ => []
  | slots + 1, more, frameIterator =>
    if more then
      let next := Frames.Next frameIterator
      next.1 :: GetStackTrace.loop slots next.2.1 next.2.2
    else []

/-- `func GetStackTrace(skip, depth int) (stacktrace StackTrace)`; `none` when
`getStackFramePoints` panics or `make([]StackFrame, framePointsLen)` does.
`skip++` wraps around. -/
def GetStackTrace (rt : Runtime) (skip depth : Int) : Option StackTrace :=
  let skip : Int := if skip < -3 then -3 else skip
  let skip : Int := wrapInt (skip + 1)
  match getStackFramePoints rt.stack skip depth with
  | none => none
  | some framePoints =>
    let framePointsLen := framePoints.length
    if framePointsLen ≤ rt.stack.maxLen then
      let frameIterator := CallersFrames rt framePoints
      some (GetStackTrace.loop framePointsLen true frameIterator)
    else none

/-- `cachedStackFrames`, the map from program counter to resolved frame. -/
abbrev Cache := Nat → Option StackFrame

/-- `make(map[uintptr]StackFrame)`: the cache with no entry. -/
def Cache.empty : Cache := fun _ => none

/-- `cachedStackFrames[fp] = frame`. -/
def Cache.set (cache : Cache) (fp : Nat) (frame : StackFrame) : Cache :=
  fun key => if key = fp then some frame else cache key

/-- Modelled from the spec: `StackFrame.doFormat`, whose code is not among the
sources; it "renders one line" and the text "is cached on the frame after first
render". -/
def doFormat (rt : Runtime) (frame : StackFrame) : StackFrame :=
  if frame.Format = "" then { frame with Format := rt.format frame } else frame

/-- The first loop of `GetStackTrace2`: `stacktrace[i], found =
cachedStackFrames[framePoints[i]]` for every `i`; the frames read (the zero
frame on a miss) and `needToUpdateCache`. -/
def GetStackTrace2.probe (cache : Cache) : List Nat → StackTrace × Bool
  | [] => ([], false)
  | fp :: framePoints =>
    let rest := GetStackTrace2.probe cache framePoints
    match cache fp with
    | some frame => (frame :: rest.1, rest.2)
    | none => (StackFrame.zero :: rest.1, true)

/-- The second loop of `GetStackTrace2`: every frame with `PC == 0` is resolved
from its program point, its `PC` left at 0, and formatted. -/
def GetStackTrace2.resolve (rt : Runtime) : List Nat → StackTrace → StackTrace
  | fp :: framePoints, frame :: stacktrace =>
    (if frame.PC = 0 then
        doFormat rt ⟨0, rt.funcName fp, rt.fileOf fp, rt.lineOf fp, rt.entryOf fp, ""⟩
      else frame) :: GetStackTrace2.resolve rt framePoints stacktrace
  | _, _ => []

/-- The third loop of `GetStackTrace2`: a frame with `PC == 0` gets its program
point as `PC`, and every frame is written to the cache under its point. -/
def GetStackTrace2.store : List Nat → StackTrace → Cache → StackTrace × Cache
  | fp :: framePoints, frame :: stacktrace, cache =>
    let frame : StackFrame := if frame.PC = 0 then { frame with PC := fp } else frame
    let rest := GetStackTrace2.store framePoints stacktrace (cache.set fp frame)
    (frame :: rest.1, rest.2)
  | _, _, cache => ([], cache)

/-- `func GetStackTrace2(skip, depth int) (stacktrace StackTrace)` run on the
cache `cache`: the trace returned and the cache after the call; `none` when
`getStackFramePoints` panics or `make(StackTrace, len(framePoints))` does.
`skip++` wraps around. The locks are left out: one call runs at a time. -/
def GetStackTrace2 (rt : Runtime) (cache : Cache) (skip depth : Int) :
    Option (StackTrace × Cache) :=
  let skip : Int := if skip < -3 then -3 else skip
  let skip : Int := wrapInt (skip + 1)
  match getStackFramePoints rt.stack skip depth with
  | none => none
  | some framePoints =>
    if framePoints.length ≤ rt.stack.maxLen then
      let probed := GetStackTrace2.probe cache framePoints
      if !probed.2 then
        some (probed.1, cache)
      else
        let stacktrace := GetStackTrace2.resolve rt framePoints probed.1
        some (GetStackTrace2.store framePoints stacktrace cache)
    else none

/-- Every entry of the cache sits under the program counter of its frame, as
the third loop of `GetStackTrace2` writes it. -/
def Cache.Valid (cache : Cache) : Prop :=
  ∀ (fp : Nat) (frame : StackFrame), cache fp = some frame → frame.PC = fp

/-- The points a capture yields when `avail` are the points of the stack from
the depth it starts at: `depth` of them at most when `depth > 0`; otherwise the
first 128 at most without the last of them, and a panic when there is none. -/
def pointsFrom (avail : List Nat) (depth : Int) : Option (List Nat) :=
  if depth > 0 then some (avail.take depth.toNat)
  else if avail = [] then none
  else some (avail.take (min avail.length 128 - 1))

/-- What `getStackFramePoints` does once the capture starts at the depth `d` of
the stack: for `count > 0` the panic of `make` or `count` points at most, and
otherwise what `pointsFrom` says. -/
def captureAt (stack : CallStack) (d : Nat) (count : Int) : Option (List Nat) :=
  if count > 0 then
    if count ≤ (stack.maxLen : Int) then some ((stack.points.drop d).take count.toNat)
    else none
  else pointsFrom (stack.points.drop d) count

/-- The frame a call of `GetStackTrace2` that misses the cache returns for the
program point `fp`: the cached frame, or the frame resolved for `fp` when there
is none (or when its `PC` is 0), with `PC` set to `fp` if it was 0. -/
def GetStackTrace2.frameFor (rt : Runtime) (cache : Cache) (fp : Nat) : StackFrame :=
  let probed : StackFrame := (cache fp).getD StackFrame.zero
  let resolved : StackFrame :=
    if probed.PC = 0 then
      doFormat rt ⟨0, rt.funcName fp, rt.fileOf fp, rt.lineOf fp, rt.entryOf fp, ""⟩
    else probed
  if resolved.PC = 0 then { resolved with PC := fp } else resolved

/-- The largest slice length of the runtimes of the examples. -/
def sampleMaxLen : Nat := 2 ^ 45

/-- A runtime whose stack is the program points of the frames of `trace`, each
resolved to its frame. -/
def runtimeOf (trace : StackTrace) : Runtime where
  stack :=
    { points := (trace.map (fun frame => frame.PC)).take sampleMaxLen
      maxLen := sampleMaxLen
      points_le := List.length_take_le _ _
      maxLen_lt := by decide
      maxLen_ge := by decide }
  frameAt := fun pc => (trace.find? (fun frame => frame.PC == pc)).getD StackFrame.zero
  funcName := fun pc =>
    ((trace.find? (fun frame => frame.PC == pc)).getD StackFrame.zero).Function
  fileOf := fun _ => "main.go"
  lineOf := fun pc => pc
  entryOf := fun pc => pc
  format := fun frame => frame.File ++ " " ++ frame.Function ++ "()"

/-- A runtime whose stack is `fullTrace`: the capturer's own three frames,
`main.main` and the two frames of the Go runtime below it. -/
def sampleRuntime : Runtime := runtimeOf fullTrace

/-- The stack at the call of `GetStackTrace(3, -1)` inside `addStacktrace`,
under a logger called from `main.handler`. -/
def loggerTrace : StackTrace :=
  [frameOf 1 "runtime.Callers", frameOf 2 "ekasys.getStackFramePoints",
   frameOf 3 "ekasys.GetStackTrace", frameOf 4 "ekalog.(*Entry).addStacktrace",
   frameOf 5 "ekalog.(*Logger).log", frameOf 6 "ekalog.(*Logger).Warn",
   frameOf 7 "main.handler", frameOf 8 "main.main", frameOf 9 "runtime.main",
   frameOf 10 "runtime.goexit"]

/-- The runtime at the call of `GetStackTrace(3, -1)` inside `addStacktrace`. -/
def loggerRuntime : Runtime := runtimeOf loggerTrace

/-! ### ekalog: entries -/

/-- Modelled from the spec: `ekaletter.Letter` as far as an `Entry` uses it, its
declaration is not among the sources: the "optional StackTrace" (`nil` is the
empty list) and the field container `Items`. `spare` is the storage of
`Items.Fields` past its length, so that `cap(Items.Fields)` is
`len(Items.Fields) + len(spare)`. -/
structure Letter where
  StackTrace : StackTrace
  Items : LetterItem
  spare : List Field
  deriving DecidableEq, Repr

/-- Modelled from the spec: `ekalog.Entry`, whose declaration is not among the
sources: its own letter, the "optional reference to an attached Error" (`none`
is nil) and the flag of `prepare`. -/
structure Entry where
  LogLetter : Letter
  ErrLetter : Option Letter
  needSetFinalizer : Bool
  deriving DecidableEq, Repr

/-- The loop of `clone`, `for i := 0; i < lFrom; i++ {
clonedEntry.LogLetter.Items.Fields[i] = e.LogLetter.Items.Fields[i] }`, at
index `i` with `left = lFrom - i` rounds to go; `none` when an index is out of
range. -/
def clone.loop (fieldsFrom : List Field) : Nat → Nat → List Field → Option (List Field)
  | 0, _, fieldsTo => some fieldsTo
  | left + 1, i, fieldsTo =>
    match fieldsFrom[i]? with
    | none => none
    | some f =>
      if i < fieldsTo.length then clone.loop fieldsFrom left (i + 1) (fieldsTo.set i f)
      else none

/-- `func (e *Entry) clone() *Entry`, with `acquired` the Entry that
`acquireEntry()` hands out; `none` when an index or a slice bound is out of
range. `e` is only read. -/
def clone (e : Entry) (acquired : Entry) : Option Entry :=
  let clonedItems : LetterItem := { acquired.LogLetter.Items with Flags := e.LogLetter.Items.Flags }
  let lFrom := e.LogLetter.Items.Fields.length
  if lFrom > 0 then
    let cTo := clonedItems.Fields.length + acquired.LogLetter.spare.length
    let storage : List Field × List Field :=
      if cTo < lFrom then
        (List.replicate lFrom Field.zero, [])
      else
        ((clonedItems.Fields ++ acquired.LogLetter.spare).take lFrom,
         (clonedItems.Fields ++ acquired.LogLetter.spare).drop lFrom)
    match clone.loop e.LogLetter.Items.Fields lFrom 0 storage.1 with
    | none => none
    | some fields =>
      some { acquired with
        LogLetter := { acquired.LogLetter with
          Items := { clonedItems with Fields := fields }, spare := storage.2 } }
  else
    some { acquired with LogLetter := { acquired.LogLetter with Items := clonedItems } }

/-- `func (e *Entry) addStacktrace() (this *Entry)`, with `rt` the runtime at
the call of `GetStackTrace(3, -1)`; `none` when the capture panics. -/
def addStacktrace (rt : Runtime) (e : Entry) : Option Entry :=
  if e.ErrLetter = none then
    match GetStackTrace rt 3 (-1) with
    | none => none
    | some stacktrace =>
      match ExcludeInternal stacktrace with
      | none => none
      | some trimmed => some { e with LogLetter := { e.LogLetter with StackTrace := trimmed } }
  else some e

/-- An Entry without an attached error that already has a trace of its own. -/
def tracedEntry : Entry :=
  ⟨⟨[frameOf 99 "main.earlier"], ⟨[], 0⟩, []⟩, none, false⟩

/-- An Entry with an attached error letter that carries a trace. -/
def errorEntry : Entry :=
  ⟨⟨[], ⟨[], 0⟩, []⟩, some ⟨[frameOf 50 "main.failing"], ⟨[], 0⟩, []⟩, false⟩

/-! ## Theorems -/

/-! ### ExcludeInternal -/

/-- Running the loop from index `j + k`, when the `k` frames above index `j`
are internal and the frame at `j` is not internal or `j = 0`, leaves the
loop with `idx = j - 1`. -/
theorem ExcludeInternal.loop_run (s : StackTrace) (j : Nat) :
    ∀ (k fuel : Nat), k < fuel →
      (∀ i, j < i → i ≤ j + k → ∃ frame, s[i]? = some frame ∧ frame.isInternal = true) →
      (j = 0 ∨ ∃ frame, s[j]? = some frame ∧ frame.isInternal = false) →
      ExcludeInternal.loop s fuel ((j + k : Nat) : Int) = some ((j : Int) - 1) := by
  intro k
  induction k with
  | zero =>
    intro fuel hfuel _ hj
    obtain ⟨fuel, rfl⟩ : ∃ n, fuel = n + 1 := ⟨fuel - 1, by omega⟩
    rcases hj with rfl | ⟨frame, hget, hint⟩
    · simp [ExcludeInternal.loop]
    · by_cases h0 : 0 < j
      · have hint2 : (HasPrefix frame.Function "runtime."
            || HasPrefix frame.Function "testing.") = false := hint
        simp [ExcludeInternal.loop, h0, hget, hint2]
      · have : j = 0 := by omega
        subst this
        simp [ExcludeInternal.loop]
  | succ k ih =>
    intro fuel hfuel hrun hj
    obtain ⟨fuel, rfl⟩ : ∃ n, fuel = n + 1 := ⟨fuel - 1, by omega⟩
    obtain ⟨frame, hget, hint⟩ := hrun (j + (k + 1)) (by omega) (le_refl _)
    have hint2 : (HasPrefix frame.Function "runtime."
        || HasPrefix frame.Function "testing.") = true := hint
    have hpos : (0 : Int) < ((j + (k + 1) : Nat) : Int) := by omega
    have hnext : (((j + (k + 1) : Nat) : Int) - 1) = ((j + k : Nat) : Int) := by omega
    have hrec := ih fuel (by omega) (fun i h1 h2 => hrun i h1 (by omega)) hj
    rw [ExcludeInternal.loop]
    simp only [hpos, if_true, Int.toNat_ofNat, hget, hint2, hnext, hrec]

/-- On a trace `pre ++ frame :: suf` whose frames `suf` are all internal, where
`frame` is not internal or is the first frame, the result is `pre ++ [frame]`. -/
theorem ExcludeInternal_split (pre suf : StackTrace) (frame : StackFrame)
    (hframe : pre = [] ∨ frame.isInternal = false)
    (hsuf : ∀ g ∈ suf, g.isInternal = true) :
    ExcludeInternal (pre ++ frame :: suf) = some (pre ++ [frame]) := by
  have hlen : (pre ++ frame :: suf).length = pre.length + suf.length + 1 := by
    simp [Nat.add_assoc]
  have hloop := ExcludeInternal.loop_run (pre ++ frame :: suf) pre.length suf.length
    ((pre ++ frame :: suf).length + 1) (by omega)
    (by
      intro i h1 h2
      obtain ⟨d, rfl⟩ : ∃ d, i = pre.length + (d + 1) := ⟨i - pre.length - 1, by omega⟩
      have hd : d < suf.length := by omega
      refine ⟨suf[d], ?_, hsuf _ (List.getElem_mem _)⟩
      rw [List.getElem?_append_right (by omega)]
      simp [hd])
    (by
      rcases hframe with rfl | h
      · exact Or.inl rfl
      · exact Or.inr ⟨frame, by rw [List.getElem?_append_right (le_refl _)]; simp, h⟩)
  have hstart : (((pre ++ frame :: suf).length : Nat) : Int) - 1
      = ((pre.length + suf.length : Nat) : Int) := by
    rw [hlen]; omega
  unfold ExcludeInternal
  rw [hstart, hloop]
  have hbound : (0 : Int) ≤ (pre.length : Int) - 1 + 2
      ∧ (pre.length : Int) - 1 + 2 ≤ ((pre ++ frame :: suf).length : Int) := by
    rw [hlen]; omega
  have htake : ((pre.length : Int) - 1 + 2).toNat = pre.length + 1 := by omega
  simp only [hbound, and_self, if_true, htake]
  congr 1
  rw [List.take_append_eq_append_take]
  simp

/-- A trace is made of internal frames only, or splits at its last frame
that is not internal. -/
theorem trace_split_last (s : StackTrace) :
    (∀ g ∈ s, g.isInternal = true) ∨
    ∃ pre frame suf, s = pre ++ frame :: suf ∧ frame.isInternal = false
      ∧ ∀ g ∈ suf, g.isInternal = true := by
  induction s with
  | nil => exact Or.inl (by simp)
  | cons x s ih =>
    rcases ih with hall | ⟨pre, frame, suf, rfl, hframe, hsuf⟩
    · by_cases hx : x.isInternal = true
      · exact Or.inl (by simpa [hx] using hall)
      · exact Or.inr ⟨[], x, s, rfl, by simpa using hx, hall⟩
    · exact Or.inr ⟨x :: pre, frame, suf, rfl, hframe, hsuf⟩

/-- C2. For every trace with at least one frame that is not internal,
`ExcludeInternal` returns exactly the prefix that ends at the last such frame:
the trace is `pre ++ frame :: suf` with `frame` not internal and every frame of
`suf` internal, and the result is `pre ++ [frame]`, so the run `suf` is dropped
and the internal frames inside `pre` are kept. -/
theorem ExcludeInternal_prefix_to_last_external (s : StackTrace)
    (h : ∃ g ∈ s, g.isInternal = false) :
    ∃ pre frame suf, s = pre ++ frame :: suf ∧ frame.isInternal = false
      ∧ (∀ g ∈ suf, g.isInternal = true)
      ∧ ExcludeInternal s = some (pre ++ [frame]) := by
  rcases trace_split_last s with hall | ⟨pre, frame, suf, rfl, hframe, hsuf⟩
  · obtain ⟨g, hg, hgi⟩ := h
    rw [hall g hg] at hgi
    exact absurd hgi (by decide)
  · exact ⟨pre, frame, suf, rfl, hframe, hsuf,
      ExcludeInternal_split pre suf frame (Or.inr hframe) hsuf⟩

/-- C2, at a concrete trace: the run `testing.tRunner`, `runtime.goexit` at the
end is dropped, `runtime.gopanic` inside the trace is kept. -/
theorem ExcludeInternal_prefix_to_last_external_witness :
    ExcludeInternal panicTrace
        = some [frameOf 1 "main.inner", frameOf 2 "runtime.gopanic", frameOf 3 "main.outer"]
    ∧ ∃ pre frame suf, panicTrace = pre ++ frame :: suf ∧ frame.isInternal = false
      ∧ (∀ g ∈ suf, g.isInternal = true)
      ∧ ExcludeInternal panicTrace = some (pre ++ [frame]) :=
  ⟨by decide,
   ExcludeInternal_prefix_to_last_external panicTrace
     ⟨frameOf 3 "main.outer", by decide, by decide⟩⟩

/-- C3 as stated fails: the trace starts with the internal frame
`runtime.Callers`, and the result of `ExcludeInternal` starts with the same
run of internal frames. -/
theorem ExcludeInternal_keeps_leading_internal :
    ExcludeInternal fullTrace
        = some [frameOf 1 "runtime.Callers", frameOf 2 "ekasys.getStackFramePoints",
                frameOf 3 "ekasys.GetStackTrace", frameOf 4 "main.main"]
    ∧ fullTrace.takeWhile StackFrame.isInternal = [frameOf 1 "runtime.Callers"]
    ∧ List.takeWhile StackFrame.isInternal
        [frameOf 1 "runtime.Callers", frameOf 2 "ekasys.getStackFramePoints",
         frameOf 3 "ekasys.GetStackTrace", frameOf 4 "main.main"]
        = [frameOf 1 "runtime.Callers"] :=
  ⟨by decide, by decide, by decide⟩

/-- C3, amended. For every trace, `ExcludeInternal` returns the trace without
a run of internal frames at its end: the input is the result `r` followed by
internal frames only, and the last frame of `r` is not internal unless `r` is
the single frame at index 0. The frames at the start stay, internal or not: the
result of a trace that is not empty starts with the frame at index 0. -/
theorem ExcludeInternal_drops_trailing_run (s : StackTrace) :
    ∃ r suf, ExcludeInternal s = some r ∧ s = r ++ suf
      ∧ (∀ g ∈ suf, g.isInternal = true)
      ∧ (∀ frame, r.getLast? = some frame → frame.isInternal = true → r.length = 1)
      ∧ (s ≠ [] → r.head? = s.head?) := by
  cases s with
  | nil => exact ⟨[], [], by decide, rfl, by simp, by simp, by simp⟩
  | cons x t =>
    rcases trace_split_last (x :: t) with hall | ⟨pre, frame, suf, hs, hframe, hsuf⟩
    · refine ⟨[x], t, ExcludeInternal_split [] t x (Or.inl rfl) ?_, rfl, ?_, by simp,
        by simp⟩
      · intro g hg
        exact hall g (List.mem_cons_of_mem _ hg)
      · intro g hg
        exact hall g (List.mem_cons_of_mem _ hg)
    · refine ⟨pre ++ [frame], suf, ?_, by simp [hs], hsuf, ?_, ?_⟩
      · rw [hs]
        exact ExcludeInternal_split pre suf frame (Or.inr hframe) hsuf
      · intro g hg hgi
        simp at hg
        subst hg
        rw [hframe] at hgi
        exact absurd hgi (by decide)
      · intro _
        rw [hs]
        cases pre <;> rfl

/-! ### The field encoder -/

/-- The test `name != "" && name[len(name)-1] == '?'` of the source says that
the name ends in `?`. -/
theorem varyField_eq (name : String) :
    (name != "" && name.data.getLast? == some '?') = endsWithQuestion name := by
  unfold endsWithQuestion
  by_cases h : name = ""
  · subst h; decide
  · simp [h]

/-- A name `base ++ "?"` ends in `?`, and trimming it gives `base` back. -/
theorem trimQuestion_append (base : String) :
    endsWithQuestion (base ++ "?") = true ∧ trimQuestion (base ++ "?") = base := by
  have h : endsWithQuestion (base ++ "?") = true := by simp [endsWithQuestion]
  exact ⟨h, by simp [trimQuestion, h]⟩

/-- A name that does not end in `?` is its own trimmed name. -/
theorem trimQuestion_plain (name : String) (h : endsWithQuestion name = false) :
    trimQuestion name = name := by
  simp [trimQuestion, h]

/-- The code at `recognizer:` appends the field unless the name is a vary
name and the field is zero. -/
theorem recognizer_eq (li : LetterItem) (varyField : Bool) (f : Field) :
    recognizer li varyField f
      = if varyField = true ∧ f.IsZero = true then li else li.append f := by
  unfold recognizer LetterItem.append
  cases varyField <;> cases f.IsZero <;> simp

/-- C1. For every name and every value of a primitive kind whose type is not
`time.Time`, `time.Duration` or a `fmt.Stringer`: when the name ends in `?` and
the value is the zero value of its kind, the container is unchanged; in every
other case exactly one field is appended, of the matching kind, holding the
value, keyed by the name with one trailing `?` removed. -/
theorem addImplicitField_primitive (li : LetterItem) (name : String) (p : Payload)
    (hp : p.isPrimitive = true) :
    addImplicitField li name (.data none p) (TypeOf (.data none p))
      = if endsWithQuestion name = true ∧ p.isZeroValue = true then li
        else li.append ⟨trimQuestion name, p.fieldValue⟩ := by
  unfold addImplicitField addImplicitField.body
  simp only [varyField_eq, recognizer_eq]
  cases hq : endsWithQuestion name <;> cases p <;>
    simp_all [trimQuestion, Payload.isPrimitive, Payload.isZeroValue, Payload.fieldValue, TypeOf,
      Payload.kind, Field.IsZero, reflectedTimeTime, reflectedTimeDuration,
      ekafield.Bool, ekafield.Int, ekafield.Int8, ekafield.Int16, ekafield.Int32,
      ekafield.Int64, ekafield.Uint8, ekafield.Uint16, ekafield.Uint32, ekafield.Uint64,
      ekafield.Float32, ekafield.Float64, ekafield.Complex64, ekafield.Complex128,
      ekafield.String, Value.asBool, Value.asInt, Value.asUint, Value.asFloat,
      Value.asComplex, Value.asString]

/-- C1, at the inputs of the spec: `encode("x?", 0, int)` drops the field and
`encode("x", 0, int)` appends a zero-valued integer field. -/
theorem addImplicitField_primitive_witness :
    addImplicitField ⟨[], 0⟩ "x?" (.data none (.int 0)) (TypeOf (.data none (.int 0)))
      = ⟨[], 0⟩
    ∧ addImplicitField ⟨[], 0⟩ "x" (.data none (.int 0)) (TypeOf (.data none (.int 0)))
      = ⟨[⟨"x", .int 0⟩], 0⟩ :=
  ⟨(addImplicitField_primitive ⟨[], 0⟩ "x?" (.int 0) rfl).trans (by decide),
   (addImplicitField_primitive ⟨[], 0⟩ "x" (.int 0) rfl).trans (by decide)⟩

/-- C4. For every name, a nil value appends nothing when the name ends in
`?`, and otherwise appends exactly one explicit null field of invalid kind keyed
by the name. The function is total: there is no failure in either case. -/
theorem addImplicitField_nil (li : LetterItem) (name : String) (typ : RType) :
    addImplicitField li name .nil typ
      = if endsWithQuestion name = true then li else li.append ⟨name, .null .Invalid⟩ := by
  unfold addImplicitField addImplicitField.body
  simp only [varyField_eq]
  cases hq : endsWithQuestion name <;>
    simp [LetterItem.append, ekafield.NilValue, KIND_TYPE_INVALID]

/-- C4, at the input of `foo3` in `error_test.go`: the pair `"arg1?", nil` adds
no field, and under the name `"arg1"` it adds the explicit null. -/
theorem addImplicitField_nil_witness :
    addImplicitField ⟨[], 0⟩ "arg1?" .nil (TypeOf .nil) = ⟨[], 0⟩
    ∧ addImplicitField ⟨[], 0⟩ "arg1" .nil (TypeOf .nil) = ⟨[⟨"arg1", .null .Invalid⟩], 0⟩ :=
  ⟨(addImplicitField_nil ⟨[], 0⟩ "arg1?" (TypeOf .nil)).trans (by decide),
   (addImplicitField_nil ⟨[], 0⟩ "arg1" (TypeOf .nil)).trans (by decide)⟩

/-- C5 as stated fails: a zero `time.Duration` under a vary name is not
emitted at all, neither as a Duration field nor as any other. -/
theorem addImplicitField_zero_duration_dropped :
    addImplicitField ⟨[], 0⟩ "elapsed?" (.duration 0) (TypeOf (.duration 0)) = ⟨[], 0⟩ := by
  decide

/-- C5, amended. The dispatch has a fixed precedence. A `time.Time` or
`time.Duration` value builds the dedicated Time or Duration field, never a
text-rendered one; every other non-nil value whose type implements
`fmt.Stringer` builds the text-rendered field, whatever its kind (a primitive, a
composite or a pointer, nil or not, under every flag). The field built is
appended, keyed by the trimmed name, unless the name ends in `?` and the field
is zero, in which case the container is unchanged. -/
theorem addImplicitField_precedence (li : LetterItem) (name : String) :
    (∀ t : Int, addImplicitField li name (.time t) (TypeOf (.time t))
      = if endsWithQuestion name = true ∧ t = 0 then li
        else li.append ⟨trimQuestion name, .time t⟩)
    ∧ (∀ d : Int, addImplicitField li name (.duration d) (TypeOf (.duration d))
      = if endsWithQuestion name = true ∧ d = 0 then li
        else li.append ⟨trimQuestion name, .duration d⟩)
    ∧ (∀ (text : String) (p : Payload),
        addImplicitField li name (.data (some text) p) (TypeOf (.data (some text) p))
      = if endsWithQuestion name = true ∧ text = "" then li
        else li.append ⟨trimQuestion name, .stringer text⟩)
    ∧ (∀ (text : String) (addr : Nat) (pointee : Value),
        addImplicitField li name (.ptr (some text) addr pointee)
          (TypeOf (.ptr (some text) addr pointee))
      = if endsWithQuestion name = true ∧ text = "" then li
        else li.append ⟨trimQuestion name, .stringer text⟩) := by
  refine ⟨?_, ?_, ?_, ?_⟩
  · intro t
    unfold addImplicitField addImplicitField.body
    simp only [varyField_eq, recognizer_eq]
    cases hq : endsWithQuestion name <;>
      simp [trimQuestion, hq, TypeOf, Field.IsZero, ekafield.Time, Value.asTime]
  · intro d
    unfold addImplicitField addImplicitField.body
    simp only [varyField_eq, recognizer_eq]
    cases hq : endsWithQuestion name <;>
      simp [trimQuestion, hq, TypeOf, Field.IsZero, ekafield.Duration, Value.asDuration,
        reflectedTimeTime, reflectedTimeDuration]
  · intro text p
    unfold addImplicitField addImplicitField.body
    simp only [varyField_eq, recognizer_eq]
    cases hq : endsWithQuestion name <;>
      simp [trimQuestion, hq, TypeOf, Field.IsZero, ekafield.Stringer, Value.stringerText,
        reflectedTimeTime, reflectedTimeDuration]
  · intro text addr pointee
    unfold addImplicitField addImplicitField.body
    simp only [varyField_eq, recognizer_eq]
    cases hq : endsWithQuestion name <;>
      simp [trimQuestion, hq, TypeOf, Field.IsZero, ekafield.Stringer, Value.stringerText,
        reflectedTimeTime, reflectedTimeDuration]

/-- C5, amended, at the inputs of the spec and of `foo` in `error_test.go`:
`encode("t", now, Time)` appends a Time field, and the value `T{}` with its
`String` method appends the text-rendered field. -/
theorem addImplicitField_precedence_witness :
    addImplicitField ⟨[], 0⟩ "t" (.time 1600000000) (TypeOf (.time 1600000000))
      = ⟨[⟨"t", .time 1600000000⟩], 0⟩
    ∧ addImplicitField ⟨[], 0⟩ "foo_arg" (.data (some "stringer") .struct)
        (TypeOf (.data (some "stringer") .struct))
      = ⟨[⟨"foo_arg", .stringer "stringer"⟩], 0⟩ :=
  ⟨((addImplicitField_precedence ⟨[], 0⟩ "t").1 1600000000).trans (by decide),
   ((addImplicitField_precedence ⟨[], 0⟩ "foo_arg").2.2.1 "stringer" .struct).trans
     (by decide)⟩

/-- A value of an unsupported kind whose type is not a `fmt.Stringer`: the
second `switch` ends in `default`, and the code at `recognizer:` appends the
zero `Field` unless the name ends in `?`. -/
theorem addImplicitField_unsupported (li : LetterItem) (name : String) (p : Payload)
    (hp : p.isUnsupported = true) :
    addImplicitField li name (.data none p) (TypeOf (.data none p))
      = if endsWithQuestion name = true then li else li.append Field.zero := by
  unfold addImplicitField addImplicitField.body
  simp only [varyField_eq, recognizer_eq]
  cases hq : endsWithQuestion name <;> cases p <;>
    simp_all [Payload.isUnsupported, TypeOf, Payload.kind, Field.IsZero, Field.zero,
      reflectedTimeTime, reflectedTimeDuration]

/-- C6, the code at the failing input: a struct value under the plain name
`"obj"` makes the container grow by one field, the zero `Field` with the empty
key and the invalid kind. -/
theorem addImplicitField_struct_appends_zero_field :
    addImplicitField ⟨[], 0⟩ "obj" (.data none .struct) (TypeOf (.data none .struct))
      = ⟨[⟨"", .invalid⟩], 0⟩ := by
  decide

/-- C7, the code at the failing inputs, with `FLAG_ALLOW_IMPLICIT_POINTERS` not
set. Under the plain name `"n"` a pointer to the `int` 5 appends the field of
the pointee and then the zero `Field`, where the pointee alone appends one
field. Under the vary name `"n?"` a pointer to the `int` 0 appends a zero
integer field, where the pointee alone appends nothing. -/
theorem addImplicitField_pointer_differs_from_pointee :
    TestAll 0 FLAG_ALLOW_IMPLICIT_POINTERS = false
    ∧ addImplicitField ⟨[], 0⟩ "n" (.ptr none 4096 (.data none (.int 5)))
        (TypeOf (.ptr none 4096 (.data none (.int 5))))
      = ⟨[⟨"n", .int 5⟩, ⟨"", .invalid⟩], 0⟩
    ∧ addImplicitField ⟨[], 0⟩ "n" (.data none (.int 5)) (TypeOf (.data none (.int 5)))
      = ⟨[⟨"n", .int 5⟩], 0⟩
    ∧ addImplicitField ⟨[], 0⟩ "n?" (.ptr none 4096 (.data none (.int 0)))
        (TypeOf (.ptr none 4096 (.data none (.int 0))))
      = ⟨[⟨"n", .int 0⟩], 0⟩
    ∧ addImplicitField ⟨[], 0⟩ "n?" (.data none (.int 0)) (TypeOf (.data none (.int 0)))
      = ⟨[], 0⟩ := by
  decide

/-- A pointer that is not nil, whose type is not a `fmt.Stringer`, with
`FLAG_ALLOW_IMPLICIT_POINTERS` not set: the pointee is encoded under the trimmed
name, and then the code at `recognizer:` runs on the zero `Field`. -/
theorem addImplicitField_pointer_indirect (li : LetterItem) (name : String) (addr : Nat)
    (pointee : Value) (haddr : addr ≠ 0)
    (hflag : TestAll li.Flags FLAG_ALLOW_IMPLICIT_POINTERS = false) :
    addImplicitField li name (.ptr none addr pointee) (TypeOf (.ptr none addr pointee))
      = recognizer (addImplicitField li (trimQuestion name) pointee (TypeOf pointee))
          (endsWithQuestion name) Field.zero := by
  rw [addImplicitField]
  unfold addImplicitField.body
  simp only [varyField_eq]
  cases hq : endsWithQuestion name <;>
    simp [trimQuestion, hq, TypeOf, TakeRealAddr, hflag, haddr, reflectedTimeTime,
      reflectedTimeDuration]

/-- C8 as stated fails: a pointer whose type implements `fmt.Stringer` does not
take the raw-address branch. With `FLAG_ALLOW_IMPLICIT_POINTERS` set, a pointer
that is not nil appends the text-rendered field; so does a typed nil pointer
(here one whose `String` method answers `"T"`), with the flag not set. -/
theorem addImplicitField_stringer_pointer_not_as_is :
    TestAll FLAG_ALLOW_IMPLICIT_POINTERS FLAG_ALLOW_IMPLICIT_POINTERS = true
    ∧ addImplicitField ⟨[], FLAG_ALLOW_IMPLICIT_POINTERS⟩ "p"
        (.ptr (some "T") 4096 (.data none .struct))
        (TypeOf (.ptr (some "T") 4096 (.data none .struct)))
      = ⟨[⟨"p", .stringer "T"⟩], FLAG_ALLOW_IMPLICIT_POINTERS⟩
    ∧ addImplicitField ⟨[], 0⟩ "p" (.ptr (some "T") 0 .nil) (TypeOf (.ptr (some "T") 0 .nil))
      = ⟨[⟨"p", .stringer "T"⟩], 0⟩ := by
  decide

/-- C8, amended. For a pointer whose type does not implement `fmt.Stringer`:
when its address is nil, under every flag setting, or when
`FLAG_ALLOW_IMPLICIT_POINTERS` is set, the body takes the raw-address branch and
does not recurse. Its result is the same for every outcome `indirect` of the
recursive call and for every pointee: the address field is appended under the
trimmed name, unless the name ends in `?` and the address is nil. -/
theorem addImplicitField_pointer_as_is (li : LetterItem) (name : String) (addr : Nat)
    (pointee : Value) (indirect : String → LetterItem)
    (h : addr = 0 ∨ TestAll li.Flags FLAG_ALLOW_IMPLICIT_POINTERS = true) :
    addImplicitField.body indirect li name (.ptr none addr pointee)
        (TypeOf (.ptr none addr pointee))
      = (if endsWithQuestion name = true ∧ addr = 0 then li
         else li.append ⟨trimQuestion name, .addr addr⟩)
    ∧ addImplicitField li name (.ptr none addr pointee) (TypeOf (.ptr none addr pointee))
      = (if endsWithQuestion name = true ∧ addr = 0 then li
         else li.append ⟨trimQuestion name, .addr addr⟩) := by
  have hbody : ∀ ind : String → LetterItem,
      addImplicitField.body ind li name (.ptr none addr pointee)
          (TypeOf (.ptr none addr pointee))
        = (if endsWithQuestion name = true ∧ addr = 0 then li
           else li.append ⟨trimQuestion name, .addr addr⟩) := by
    intro ind
    unfold addImplicitField.body
    simp only [varyField_eq, recognizer_eq]
    rcases h with h | h <;> cases hq : endsWithQuestion name <;>
      simp [trimQuestion, hq, TypeOf, TakeRealAddr, h, reflectedTimeTime,
        reflectedTimeDuration, ekafield.Addr, Value.address, Field.IsZero]
  refine ⟨hbody indirect, ?_⟩
  rw [addImplicitField]
  exact hbody _

/-- C8, amended, at concrete inputs: a typed nil pointer with the flag not
set, and a pointer that is not nil with the flag set, both append the address
field; the pointee is not encoded. -/
theorem addImplicitField_pointer_as_is_witness :
    addImplicitField ⟨[], 0⟩ "p" (.ptr none 0 .nil) (TypeOf (.ptr none 0 .nil))
      = ⟨[⟨"p", .addr 0⟩], 0⟩
    ∧ addImplicitField ⟨[], FLAG_ALLOW_IMPLICIT_POINTERS⟩ "p"
        (.ptr none 4096 (.data none (.int 5)))
        (TypeOf (.ptr none 4096 (.data none (.int 5))))
      = ⟨[⟨"p", .addr 4096⟩], FLAG_ALLOW_IMPLICIT_POINTERS⟩ :=
  ⟨(addImplicitField_pointer_as_is ⟨[], 0⟩ "p" 0 .nil (fun _ => ⟨[], 0⟩) (Or.inl rfl)).2.trans
     (by decide),
   (addImplicitField_pointer_as_is ⟨[], FLAG_ALLOW_IMPLICIT_POINTERS⟩ "p" 4096
     (.data none (.int 5)) (fun _ => ⟨[], 0⟩) (Or.inr (by decide))).2.trans (by decide)⟩

/-- Whether a field is zero does not depend on its key. -/
theorem Field.IsZero_key (f : Field) (key : String) :
    Field.IsZero { f with Key := key } = f.IsZero := rfl

/-- C9. For every field `f`, `addExplicitField2` appends nothing when the key
of `f` ends in `?` and `f` is zero-valued, and otherwise appends exactly `f`
with one trailing `?` removed from its key, nothing else changed.
`addExplicitFieldByPtr` does the same for a pointer that is not nil and leaves
the container unchanged for a nil pointer. -/
theorem addExplicitField_vary_zero (li : LetterItem) (f : Field) :
    addExplicitField2 li f
      = (if endsWithQuestion f.Key = true ∧ f.IsZero = true then li
         else li.append { f with Key := trimQuestion f.Key })
    ∧ addExplicitFieldByPtr li (some f) = addExplicitField2 li f
    ∧ addExplicitFieldByPtr li none = li := by
  refine ⟨?_, rfl, rfl⟩
  unfold addExplicitField2
  simp only [varyField_eq]
  cases hq : endsWithQuestion f.Key <;> cases hz : f.IsZero <;>
    simp [trimQuestion, hq, hz, LetterItem.append, Field.IsZero_key]

/-- C9, at concrete fields: a zero integer field keyed `"x?"` is dropped, the
same field with the value 7 is appended under the key `"x"`. -/
theorem addExplicitField_vary_zero_witness :
    addExplicitField2 ⟨[], 0⟩ ⟨"x?", .int 0⟩ = ⟨[], 0⟩
    ∧ addExplicitFieldByPtr ⟨[], 0⟩ (some ⟨"x?", .int 7⟩) = ⟨[⟨"x", .int 7⟩], 0⟩ :=
  ⟨(addExplicitField_vary_zero ⟨[], 0⟩ ⟨"x?", .int 0⟩).1.trans (by decide),
   ((addExplicitField_vary_zero ⟨[], 0⟩ ⟨"x?", .int 7⟩).2.1.trans
     (addExplicitField_vary_zero ⟨[], 0⟩ ⟨"x?", .int 7⟩).1).trans (by decide)⟩

/-! ### Error classes -/

/-- The empty registry is well formed. -/
theorem Registry.wellFormed_nil : Registry.WellFormed [] := by
  intro i c h
  simp at h

/-- The registry stays well formed when a class is created without a parent or
with an already registered parent. -/
theorem newClass_wellFormed (reg : Registry) (hwf : reg.WellFormed) (parentID : Option Nat)
    (name : String) (hparent : ∀ p, parentID = some p → p < reg.length) :
    Registry.WellFormed (newClass reg parentID name).1 := by
  intro i c h
  simp only [newClass] at h
  by_cases hi : i < reg.length
  · rw [List.getElem?_append_left hi] at h
    exact hwf i c h
  · rw [List.getElem?_append_right (by omega)] at h
    have hi0 : i - reg.length = 0 := by
      by_contra hne
      obtain ⟨m, hm⟩ : ∃ m, i - reg.length = m + 1 := ⟨i - reg.length - 1, by omega⟩
      rw [hm] at h
      simp at h
    rw [hi0] at h
    simp at h
    subst h
    have hil : i = reg.length := by omega
    exact ⟨hil.symm, fun p hp => hil ▸ hparent p hp⟩

/-- When the walk answers true, the target is the class the walk started at or
one of its ancestors. -/
theorem IsAnyDeep.walk_sound (reg : Registry) :
    ∀ (fuel id target : Nat), IsAnyDeep.walk reg fuel id target = true →
      id = target ∨ IsAncestor reg target id := by
  intro fuel
  induction fuel with
  | zero => intro id target h; simp [IsAnyDeep.walk] at h
  | succ fuel ih =>
    intro id target h
    rw [IsAnyDeep.walk] at h
    by_cases heq : id = target
    · exact Or.inl heq
    · right
      have hne : (id == target) = false := by simpa using heq
      simp only [hne] at h
      cases hget : reg[id]? with
      | none => simp [hget] at h
      | some cls =>
        simp only [hget] at h
        cases hpar : cls.parentID with
        | none => simp [hpar] at h
        | some parent =>
          simp only [hpar] at h
          rcases ih parent target h with rfl | hanc
          · exact IsAncestor.parent hget hpar
          · exact IsAncestor.step hget hpar hanc

/-- In a well-formed registry the fuel of the walk is enough: from a class
with an id below the fuel, the walk finds the class itself and each of its
ancestors. -/
theorem IsAnyDeep.walk_complete (reg : Registry) (hwf : reg.WellFormed) :
    ∀ (fuel id target : Nat), id < fuel → (id = target ∨ IsAncestor reg target id) →
      IsAnyDeep.walk reg fuel id target = true := by
  intro fuel
  induction fuel with
  | zero => intro id target h; omega
  | succ fuel ih =>
    intro id target hlt h
    rw [IsAnyDeep.walk]
    by_cases heq : id = target
    · simp [heq]
    · have hne : (id == target) = false := by simpa using heq
      simp only [hne]
      rcases h with h | h
      · exact absurd h heq
      · cases h with
        | parent hget hpar =>
          have hp := (hwf _ _ hget).2 _ hpar
          simp only [hget, hpar]
          exact ih _ _ (by omega) (Or.inl rfl)
        | step hget hpar hanc =>
          have hp := (hwf _ _ hget).2 _ hpar
          simp only [hget, hpar]
          exact ih _ _ (by omega) (Or.inr hanc)

/-- From a class registered before the newest one, the walk never reaches the
newest class. -/
theorem IsAnyDeep.walk_older (reg : Registry) (hwf : reg.WellFormed) (cls : Class) :
    ∀ (fuel id : Nat), id < reg.length →
      IsAnyDeep.walk (reg ++ [cls]) fuel id reg.length = false := by
  intro fuel
  induction fuel with
  | zero => intro id _; rfl
  | succ fuel ih =>
    intro id hlt
    rw [IsAnyDeep.walk]
    have hne : (id == reg.length) = false := by
      simpa using (show id ≠ reg.length by omega)
    simp only [hne]
    rw [List.getElem?_append_left hlt]
    cases hget : reg[id]? with
    | none => simp
    | some c =>
      cases hpar : c.parentID with
      | none => simp [hpar]
      | some parent =>
        have hp := (hwf _ _ hget).2 _ hpar
        simp only [hpar, Bool.false_eq_true, if_false]
        exact ih parent (by omega)

/-- C10. Ancestry is one-directional. For every class `C` of a well-formed
registry and the subclass `S` created from it: an error created by `S.New`
answers `IsAnyDeep(C)` true, and `IsAnyDeep(D)` false for every class `D` that
is neither `S` nor an ancestor of `S`; an error created by `C.New` answers
`IsAnyDeep(S)` false. -/
theorem IsAnyDeep_one_directional (reg : Registry) (hwf : reg.WellFormed) (C : Class)
    (hC : reg[C.id]? = some C) (name message : String) :
    Error.IsAnyDeep (C.NewSubClass reg name).1 ((C.NewSubClass reg name).2.New message) C = true
    ∧ (∀ D : Class, D.id ≠ (C.NewSubClass reg name).2.id →
        ¬ IsAncestor (C.NewSubClass reg name).1 D.id (C.NewSubClass reg name).2.id →
        Error.IsAnyDeep (C.NewSubClass reg name).1 ((C.NewSubClass reg name).2.New message) D
          = false)
    ∧ Error.IsAnyDeep (C.NewSubClass reg name).1 (C.New message) (C.NewSubClass reg name).2
        = false := by
  have hlt : C.id < reg.length := by
    by_contra hge
    rw [List.getElem?_eq_none (by omega)] at hC
    exact absurd hC (by simp)
  refine ⟨?_, ?_, ?_⟩
  · simp only [Error.IsAnyDeep, Class.NewSubClass, newClass, Class.New, List.length_append,
      List.length_singleton]
    rw [IsAnyDeep.walk]
    have hne : (reg.length == C.id) = false := by
      simpa using (show reg.length ≠ C.id by omega)
    simp only [hne]
    rw [List.getElem?_append_right (le_refl _)]
    simp only [Nat.sub_self, List.getElem?_cons_zero]
    obtain ⟨n, hn⟩ : ∃ n, reg.length = n + 1 := ⟨reg.length - 1, by omega⟩
    rw [hn, IsAnyDeep.walk]
    simp
  · intro D hD hanc
    cases hwalk : Error.IsAnyDeep (C.NewSubClass reg name).1
        ((C.NewSubClass reg name).2.New message) D with
    | false => rfl
    | true =>
      rcases IsAnyDeep.walk_sound _ _ _ _ hwalk with h | h
      · exact absurd h.symm hD
      · exact absurd h hanc
  · simp only [Error.IsAnyDeep, Class.NewSubClass, newClass, Class.New]
    exact IsAnyDeep.walk_older reg hwf _ _ _ hlt

/-- The registry of the built-in classes is well formed. -/
theorem builtinClasses_wellFormed : Registry.WellFormed builtinClasses := by
  intro i c h
  rcases i with _ | _ | _ | _ | i <;>
    simp [builtinClasses, AlreadyExist, NotFound, IllegalState, NotImplemented] at h <;>
    subst h <;> simp

/-- C10, at the classes of `TestError_IsAnyDeep`: with `Derived` created from
`AlreadyExist`, an error of `Derived` is deeply an `AlreadyExist` and not a
`NotFound`, and an error of `AlreadyExist` is not deeply a `Derived`. -/
theorem IsAnyDeep_one_directional_witness :
    Error.IsAnyDeep (AlreadyExist.NewSubClass builtinClasses "Derived").1
        ((AlreadyExist.NewSubClass builtinClasses "Derived").2.New "Error") AlreadyExist = true
    ∧ Error.IsAnyDeep (AlreadyExist.NewSubClass builtinClasses "Derived").1
        ((AlreadyExist.NewSubClass builtinClasses "Derived").2.New "Error") NotFound = false
    ∧ Error.IsAnyDeep (AlreadyExist.NewSubClass builtinClasses "Derived").1
        (AlreadyExist.New "Error") (AlreadyExist.NewSubClass builtinClasses "Derived").2
        = false :=
  ⟨(IsAnyDeep_one_directional builtinClasses builtinClasses_wellFormed AlreadyExist rfl
      "Derived" "Error").1,
   by decide,
   (IsAnyDeep_one_directional builtinClasses builtinClasses_wellFormed AlreadyExist rfl
      "Derived" "Error").2.2⟩


/-! ### The capturer -/

/-- The loop of `getStackFramePoints` started with a buffer of 32 points, on a
stack with `n` points past `skip`: one attempt when `n < 32`, two when
`32 ≤ n < 64`, three otherwise, and the first `min n 128` points at the end.
Three units of fuel are enough. -/
theorem getStackFramePoints.loop_base (stack : List Nat) (skip : Int) :
    getStackFramePoints.loop stack skip 3 baseFullStackFramePointsLen
      = some (if (stack.drop skip.toNat).length < 32 then [32]
              else if (stack.drop skip.toNat).length < 64 then [32, 64]
              else [32, 64, 128],
              (stack.drop skip.toNat).take (min (stack.drop skip.toNat).length 128)) := by
  have h64 : (32 <<< 1 : Nat) = 64 := by decide
  have h128 : (64 <<< 1 : Nat) = 128 := by decide
  generalize hav : stack.drop skip.toNat = avail
  by_cases h1 : avail.length < 32
  · have ht : avail.take 32 = avail.take (min avail.length 128) := by
      rw [List.take_of_length_le (by omega), List.take_of_length_le (by omega)]
    simp [getStackFramePoints.loop, Callers, baseFullStackFramePointsLen,
      maxFullStackFramePointsLen, hav, h1, ht]
  · by_cases h2 : avail.length < 64
    · have ht : avail.take 64 = avail.take (min avail.length 128) := by
        rw [List.take_of_length_le (by omega), List.take_of_length_le (by omega)]
      have hmin : min 32 avail.length = 32 := by omega
      simp [getStackFramePoints.loop, Callers, baseFullStackFramePointsLen,
        maxFullStackFramePointsLen, hav, h1, h2, h64, ht, hmin]
    · have hmin : min 32 avail.length = 32 := by omega
      have hmin2 : min 64 avail.length = 64 := by omega
      have ht : avail.take 128 = avail.take (min avail.length 128) := by
        by_cases h3 : avail.length < 128
        · rw [List.take_of_length_le (by omega), List.take_of_length_le (by omega)]
        · have : min avail.length 128 = 128 := by omega
          rw [this]
      simp [getStackFramePoints.loop, Callers, baseFullStackFramePointsLen,
        maxFullStackFramePointsLen, hav, h1, h2, h64, h128, ht, hmin, hmin2]

/-- What `getStackFramePoints` returns: what `captureAt` says for the depth its
`skip`, clamped at -2 and raised by 2 with wrap-around, stands for. -/
theorem getStackFramePoints_captureAt (stack : CallStack) (skip count : Int) :
    getStackFramePoints stack skip count
      = captureAt stack (wrapInt ((if skip < -2 then -2 else skip) + 2)).toNat count := by
  unfold getStackFramePoints captureAt pointsFrom
  by_cases hc : count > 0
  · simp [hc, Callers]
  · simp only [hc, if_false, getStackFramePoints.loop_base]
    generalize stack.points.drop (wrapInt ((if skip < -2 then -2 else skip) + 2)).toNat = avail
    cases avail with
    | nil => simp
    | cons x t =>
      have hpos : (0 : Int) ≤ (((x :: t).take (min (x :: t).length 128)).length : Int) - 1 := by
        simp only [List.length_take, List.length_cons]
        omega
      have hlen : ((((x :: t).take (min (x :: t).length 128)).length : Int) - 1).toNat
          = min (x :: t).length 128 - 1 := by
        simp only [List.length_take, List.length_cons]
        omega
      rw [if_pos hpos, hlen, List.take_take]
      simp only [reduceCtorEq, if_false]
      congr 2
      omega

/-- Passing `getStackFramePoints` a `skip` of at least -2 after wrap-around
or before it gives the same capture. -/
theorem getStackFramePoints_wrapInt (stack : CallStack) (y count : Int) (hy : -2 ≤ y) :
    getStackFramePoints stack (wrapInt y) count = getStackFramePoints stack y count := by
  rw [getStackFramePoints_captureAt, getStackFramePoints_captureAt]
  congr 1
  have h2 : ¬ y < -2 := by omega
  rw [if_neg h2]
  unfold wrapInt
  split <;> omega

/-- The points `getStackFramePoints` returns are no more than the stack has. -/
theorem getStackFramePoints_length_le (stack : CallStack) (skip count : Int)
    (framePoints : List Nat) (h : getStackFramePoints stack skip count = some framePoints) :
    framePoints.length ≤ stack.maxLen := by
  rw [getStackFramePoints_captureAt] at h
  have hle := stack.points_le
  generalize (wrapInt ((if skip < -2 then -2 else skip) + 2)).toNat = d at h
  have hdrop : (stack.points.drop d).length ≤ stack.points.length := by
    rw [List.length_drop]; omega
  by_cases hc : count > 0
  · by_cases hm : count ≤ (stack.maxLen : Int)
    · simp only [captureAt, hc, hm, if_true, Option.some.injEq] at h
      rw [← h, List.length_take]
      omega
    · simp only [captureAt, hc, hm, if_true, if_false] at h
      exact absurd h (by simp)
  · by_cases he : stack.points.drop d = []
    · simp only [captureAt, pointsFrom, hc, he, if_true, if_false] at h
      exact absurd h (by simp)
    · simp only [captureAt, pointsFrom, hc, he, if_false, Option.some.injEq] at h
      rw [← h, List.length_take]
      omega

/-- C16. For `count <= 0` and a stack with `n >= 1` points `avail` past the
depth the capture starts at, `getStackFramePoints` makes one attempt with a
buffer of 32 points when `n < 32`, a second one with 64 when `32 <= n < 64`, a
third and last one with 128 otherwise: it stops at the first attempt that does
not fill its buffer or at 128. It returns the first `min n 128 - 1` points of
`avail`, in order. -/
theorem getStackFramePoints_full (stack : CallStack) (avail : List Nat) (skip count : Int)
    (hcount : count ≤ 0)
    (havail : stack.points.drop (max skip (-2) + 2).toNat = avail)
    (hn : 1 ≤ avail.length) :
    getStackFramePoints.loop stack.points (max skip (-2) + 2) 3 baseFullStackFramePointsLen
      = some (if avail.length < 32 then [32]
              else if avail.length < 64 then [32, 64]
              else [32, 64, 128],
              avail.take (min avail.length 128))
    ∧ getStackFramePoints stack skip count = some (avail.take (min avail.length 128 - 1)) := by
  refine ⟨?_, ?_⟩
  · rw [getStackFramePoints.loop_base, havail]
  · have hlen : avail.length = stack.points.length - (max skip (-2) + 2).toNat := by
      rw [← havail, List.length_drop]
    have hle := stack.points_le
    have hlt := stack.maxLen_lt
    have hdepth : (wrapInt ((if skip < -2 then -2 else skip) + 2)).toNat
        = (max skip (-2) + 2).toNat := by
      unfold wrapInt
      split <;> omega
    have hne : avail ≠ [] := by
      intro h
      rw [h] at hn
      simp at hn
    have hc : ¬ count > 0 := by omega
    rw [getStackFramePoints_captureAt, hdepth]
    simp only [captureAt, pointsFrom, hc, if_false, havail, hne]

/-- C16, on a stack of 40 points, 38 of them past the capturer: two attempts,
with 32 and 64 points, and the first 37 of the 38 points are returned. -/
theorem getStackFramePoints_full_witness :
    getStackFramePoints.loop (List.range 40) (max 0 (-2) + 2) 3 baseFullStackFramePointsLen
      = some (if ((List.range 40).drop 2).length < 32 then [32]
              else if ((List.range 40).drop 2).length < 64 then [32, 64]
              else [32, 64, 128],
              ((List.range 40).drop 2).take (min ((List.range 40).drop 2).length 128))
    ∧ getStackFramePoints ⟨List.range 40, sampleMaxLen, by decide, by decide, by decide⟩ 0 0
      = some (((List.range 40).drop 2).take (min ((List.range 40).drop 2).length 128 - 1)) :=
  getStackFramePoints_full ⟨List.range 40, sampleMaxLen, by decide, by decide, by decide⟩
    ((List.range 40).drop 2) 0 0 (by decide) rfl (by decide)

/-- C14, the code at the failing input: on a stack of six points, with
`skip = 1000` and `depth = 0`, the only attempt of the loop captures no point,
`framePoints[:len(framePoints)-1]` panics, and `GetStackTrace` and
`GetStackTrace2` panic with it. -/
theorem getStackFramePoints_panics_on_empty_capture :
    getStackFramePoints.loop sampleRuntime.stack.points 1002 3 baseFullStackFramePointsLen
      = some ([32], [])
    ∧ getStackFramePoints sampleRuntime.stack 1000 0 = none
    ∧ GetStackTrace sampleRuntime 999 0 = none
    ∧ (GetStackTrace2 sampleRuntime Cache.empty 999 0).isNone = true := by
  decide

/-- The loop of `GetStackTrace` over as many slots as there are frames left
collects these frames. -/
theorem GetStackTrace.loop_all (frames : List StackFrame) :
    GetStackTrace.loop frames.length (!frames.isEmpty) frames = frames := by
  induction frames with
  | nil => rfl
  | cons frame rest ih =>
    simp only [List.length_cons, GetStackTrace.loop, List.isEmpty_cons, Bool.not_false,
      if_true, Frames.Next]
    rw [ih]

/-- What `GetStackTrace` returns for a `skip` whose raising by 3 does not leave
the range of `int` and a `depth` that `make` grants: the frames of the points
`pointsFrom` describes, taken from the stack past the depth
`max skip (-3) + 3`. -/
theorem GetStackTrace_eq (rt : Runtime) (skip depth : Int) (hskip : skip ≤ maxInt - 3)
    (hdepth : depth ≤ (rt.stack.maxLen : Int)) :
    GetStackTrace rt skip depth
      = (pointsFrom (rt.stack.points.drop (max skip (-3) + 3).toNat) depth).map
          (List.map rt.frameAt) := by
  have hd : (wrapInt ((if wrapInt ((if skip < -3 then -3 else skip) + 1) < -2 then -2
      else wrapInt ((if skip < -3 then -3 else skip) + 1)) + 2)).toNat
      = (max skip (-3) + 3).toNat := by
    unfold wrapInt maxInt at *
    split <;> split <;> omega
  have hcap : captureAt rt.stack (max skip (-3) + 3).toNat depth
      = pointsFrom (rt.stack.points.drop (max skip (-3) + 3).toNat) depth := by
    unfold captureAt pointsFrom
    by_cases hc : depth > 0
    · simp [hc, hdepth]
    · simp [hc]
  unfold GetStackTrace
  simp only []
  cases hpts : getStackFramePoints rt.stack (wrapInt ((if skip < -3 then -3 else skip) + 1))
      depth with
  | none =>
    rw [getStackFramePoints_captureAt, hd, hcap] at hpts
    rw [hpts]
    rfl
  | some framePoints =>
    have hlen := getStackFramePoints_length_le _ _ _ _ hpts
    rw [getStackFramePoints_captureAt, hd, hcap] at hpts
    rw [hpts]
    simp only [hlen, if_true, Option.map_some', CallersFrames]
    congr 1
    cases framePoints with
    | nil => rfl
    | cons fp rest =>
      have h := GetStackTrace.loop_all ((fp :: rest).map rt.frameAt)
      simpa using h

/-- C13 as stated fails at the ends of the range of `int`. With
`skip = math.MaxInt64`, `skip++` wraps around to the least `int`, which is
clamped, and the capture starts at depth 0 with the frame of `runtime.Callers`,
where the depth `max skip (-3) + 3` lies past the whole stack. With a `depth`
above the largest slice length, `make` panics and nothing is captured. -/
theorem GetStackTrace_wraps_at_maxInt :
    GetStackTrace sampleRuntime 9223372036854775807 1 = some [frameOf 1 "runtime.Callers"]
    ∧ (pointsFrom
        (sampleRuntime.stack.points.drop (max 9223372036854775807 (-3) + 3 : Int).toNat) 1).map
        (List.map sampleRuntime.frameAt) = some []
    ∧ GetStackTrace sampleRuntime 0 ((sampleMaxLen : Int) + 1) = none := by
  decide

/-- C13, amended. For every `skip` of at most `math.MaxInt64 - 3` and every
`depth` that `make` grants as a slice length, `GetStackTrace` starts the capture
at the depth `max skip (-3) + 3` of the runtime stack: its result is the frames
of the points captured from the stack past that depth. With `skip = 0` these
are the points past the three frames of the capturer (`runtime.Callers`,
`getStackFramePoints`, `GetStackTrace`), so the first frame is the caller of
`GetStackTrace`; with `skip = -3` they start with these three; every skip below
-3 gives the result of `skip = -3`. -/
theorem GetStackTrace_start_depth (rt : Runtime) (skip depth : Int)
    (hskip : skip ≤ maxInt - 3) (hdepth : depth ≤ (rt.stack.maxLen : Int)) :
    GetStackTrace rt skip depth
      = (pointsFrom (rt.stack.points.drop (max skip (-3) + 3).toNat) depth).map
          (List.map rt.frameAt)
    ∧ GetStackTrace rt 0 depth
      = (pointsFrom (rt.stack.points.drop 3) depth).map (List.map rt.frameAt)
    ∧ GetStackTrace rt (-3) depth
      = (pointsFrom rt.stack.points depth).map (List.map rt.frameAt)
    ∧ GetStackTrace rt (min skip (-3)) depth = GetStackTrace rt (-3) depth := by
  refine ⟨GetStackTrace_eq rt skip depth hskip hdepth, ?_, ?_, ?_⟩
  · rw [GetStackTrace_eq rt 0 depth (by decide) hdepth]; rfl
  · rw [GetStackTrace_eq rt (-3) depth (by decide) hdepth]; rfl
  · have h : (if min skip (-3) < -3 then (-3 : Int) else min skip (-3)) = -3 := by
      split <;> omega
    unfold GetStackTrace
    simp only [h]
    rfl

/-- C13, amended, on the stack of the tests: `GetStackTrace(0, 1)` is the one
frame of the caller, `GetStackTrace(-3, -1)` starts with the three frames of the
capturer, and `GetStackTrace(-7, -1)` is the same trace. -/
theorem GetStackTrace_start_depth_witness :
    GetStackTrace sampleRuntime 0 1 = some [frameOf 4 "main.main"]
    ∧ GetStackTrace sampleRuntime (-3) (-1)
      = some [frameOf 1 "runtime.Callers", frameOf 2 "ekasys.getStackFramePoints",
              frameOf 3 "ekasys.GetStackTrace", frameOf 4 "main.main",
              frameOf 5 "runtime.main"]
    ∧ GetStackTrace sampleRuntime (min (-7) (-3)) (-1) = GetStackTrace sampleRuntime (-3) (-1) :=
  ⟨(GetStackTrace_start_depth sampleRuntime 0 1 (by decide) (by decide)).2.1.trans
     (by decide),
   (GetStackTrace_start_depth sampleRuntime 0 (-1) (by decide) (by decide)).2.2.1.trans
     (by decide),
   (GetStackTrace_start_depth sampleRuntime (-7) (-1) (by decide) (by decide)).2.2.2⟩

/-! ### ExcludeInternal on every trace -/

/-- On every trace `ExcludeInternal` returns; the result is empty for the
empty trace, and otherwise the first frame followed by a prefix of the rest. -/
theorem ExcludeInternal_total (s : StackTrace) :
    ∃ r, ExcludeInternal s = some r ∧ r <+: s
      ∧ (s = [] → r = []) ∧ (∀ x t, s = x :: t → ∃ r', r = x :: r') := by
  cases s with
  | nil => exact ⟨[], by decide, List.prefix_refl _, fun _ => rfl, by simp⟩
  | cons x t =>
    rcases trace_split_last (x :: t) with hall | ⟨pre, frame, suf, hs, hframe, hsuf⟩
    · refine ⟨[x], ExcludeInternal_split [] t x (Or.inl rfl) ?_, ?_, by simp, ?_⟩
      · intro g hg
        exact hall g (List.mem_cons_of_mem _ hg)
      · exact ⟨t, rfl⟩
      · intro y u hyu
        exact ⟨[], by simp at hyu; simp [hyu.1]⟩
    · refine ⟨pre ++ [frame], ?_, ?_, by simp, ?_⟩
      · rw [hs]
        exact ExcludeInternal_split pre suf frame (Or.inr hframe) hsuf
      · exact ⟨suf, by simp [hs]⟩
      · intro y u hyu
        cases pre with
        | nil =>
          simp at hs
          simp at hyu
          exact ⟨[], by simp [← hyu.1, hs.1]⟩
        | cons p pre' =>
          simp at hs
          simp at hyu
          exact ⟨pre' ++ [frame], by simp [← hyu.1, hs.1]⟩

/-- C17. For every trace, the empty one and one made only of internal frames
included, `ExcludeInternal` reads no index out of range (it returns a result)
and returns a prefix of its input; the result is empty for the empty trace and
otherwise keeps the frame at index 0, so it is not empty for an input that is
not empty. -/
theorem ExcludeInternal_safe (s : StackTrace) :
    ∃ r, ExcludeInternal s = some r ∧ r <+: s
      ∧ (s = [] → r = [])
      ∧ (∀ x t, s = x :: t → r.head? = some x)
      ∧ (s ≠ [] → r ≠ []) := by
  obtain ⟨r, hr, hpre, hnil, hcons⟩ := ExcludeInternal_total s
  refine ⟨r, hr, hpre, hnil, ?_, ?_⟩
  · intro x t hs
    obtain ⟨r', rfl⟩ := hcons x t hs
    rfl
  · intro hs
    cases s with
    | nil => exact absurd rfl hs
    | cons x t =>
      obtain ⟨r', rfl⟩ := hcons x t rfl
      simp

/-- C17, at the empty trace and at a trace of internal frames only: the
results are the empty trace and the first frame. -/
theorem ExcludeInternal_safe_witness :
    ExcludeInternal [] = some []
    ∧ ExcludeInternal [frameOf 1 "runtime.main", frameOf 2 "runtime.goexit"]
      = some [frameOf 1 "runtime.main"]
    ∧ ∃ r, ExcludeInternal [frameOf 1 "runtime.main", frameOf 2 "runtime.goexit"] = some r
      ∧ r <+: [frameOf 1 "runtime.main", frameOf 2 "runtime.goexit"]
      ∧ (([frameOf 1 "runtime.main", frameOf 2 "runtime.goexit"] : StackTrace) = [] → r = [])
      ∧ (∀ x t, ([frameOf 1 "runtime.main", frameOf 2 "runtime.goexit"] : StackTrace) = x :: t →
          r.head? = some x)
      ∧ (([frameOf 1 "runtime.main", frameOf 2 "runtime.goexit"] : StackTrace) ≠ [] → r ≠ []) :=
  ⟨by decide, by decide,
   ExcludeInternal_safe [frameOf 1 "runtime.main", frameOf 2 "runtime.goexit"]⟩

/-! ### Entries -/

/-- C11 as stated fails: an Entry without an attached error that already has
a trace of its own gets that trace replaced by a new capture. -/
theorem addStacktrace_recaptures_own_trace :
    tracedEntry.ErrLetter = none
    ∧ tracedEntry.LogLetter.StackTrace = [frameOf 99 "main.earlier"]
    ∧ (addStacktrace loggerRuntime tracedEntry).map (fun e => e.LogLetter.StackTrace)
      = some [frameOf 7 "main.handler", frameOf 8 "main.main"] := by
  decide

/-- C11, amended. `addStacktrace` is gated on the attached error alone. An
Entry with an attached error letter is returned unchanged, so its trace and the
one of the error stay as they are. An Entry without one gets
`GetStackTrace(3, -1).ExcludeInternal()` as its `LogLetter.StackTrace`, whatever
trace it had before, and nothing else of it changes; this capture returns
whenever the stack has a point past the depth 6 it starts at. -/
theorem addStacktrace_gated_on_error (rt : Runtime) (e : Entry) :
    (e.ErrLetter ≠ none → addStacktrace rt e = some e)
    ∧ (e.ErrLetter = none →
        addStacktrace rt e
          = ((GetStackTrace rt 3 (-1)).bind ExcludeInternal).map
              (fun trimmed => { e with LogLetter := { e.LogLetter with StackTrace := trimmed } }))
    ∧ (e.ErrLetter = none → rt.stack.points.drop 6 ≠ [] →
        ∃ trimmed, (pointsFrom (rt.stack.points.drop 6) (-1)).map (List.map rt.frameAt)
                     = GetStackTrace rt 3 (-1)
          ∧ (GetStackTrace rt 3 (-1)).bind ExcludeInternal = some trimmed
          ∧ addStacktrace rt e
            = some { e with LogLetter := { e.LogLetter with StackTrace := trimmed } }) := by
  have hsecond : e.ErrLetter = none →
      addStacktrace rt e
        = ((GetStackTrace rt 3 (-1)).bind ExcludeInternal).map
            (fun trimmed =>
              { e with LogLetter := { e.LogLetter with StackTrace := trimmed } }) := by
    intro h
    unfold addStacktrace
    rw [if_pos h]
    cases GetStackTrace rt 3 (-1) with
    | none => rfl
    | some stacktrace =>
      simp only [Option.some_bind]
      cases ExcludeInternal stacktrace <;> rfl
  refine ⟨?_, hsecond, ?_⟩
  · intro h
    unfold addStacktrace
    rw [if_neg h]
  · intro h hstack
    have hget : GetStackTrace rt 3 (-1)
        = (pointsFrom (rt.stack.points.drop 6) (-1)).map (List.map rt.frameAt) := by
      rw [GetStackTrace_eq rt 3 (-1) (by decide) (by omega)]; rfl
    have hpts : ∃ pts, pointsFrom (rt.stack.points.drop 6) (-1) = some pts := by
      simp [pointsFrom, hstack]
    obtain ⟨pts, hpts⟩ := hpts
    obtain ⟨trimmed, htrim, _⟩ := ExcludeInternal_total (pts.map rt.frameAt)
    refine ⟨trimmed, hget.symm, ?_, ?_⟩
    · rw [hget, hpts]
      simpa using htrim
    · rw [hsecond h, hget, hpts]
      simp [htrim]

/-- C11, amended, at two entries under a logger called from `main.handler`:
the Entry with an attached error is returned as it is, the Entry with a trace of
its own and no attached error gets the new capture. -/
theorem addStacktrace_gated_on_error_witness :
    addStacktrace loggerRuntime errorEntry = some errorEntry
    ∧ addStacktrace loggerRuntime tracedEntry
      = some { tracedEntry with
          LogLetter := { tracedEntry.LogLetter with
            StackTrace := [frameOf 7 "main.handler", frameOf 8 "main.main"] } } :=
  ⟨(addStacktrace_gated_on_error loggerRuntime errorEntry).1 (by decide),
   ((addStacktrace_gated_on_error loggerRuntime tracedEntry).2.1 (by decide)).trans
     (by decide)⟩

/-- The loop of `clone` from index `i`, over a target as long as the source
that already agrees with it below `i`, ends with the source copied. -/
theorem clone.loop_copies (fieldsFrom : List Field) :
    ∀ (left i : Nat) (fieldsTo : List Field), i + left = fieldsFrom.length →
      fieldsTo.length = fieldsFrom.length →
      (∀ j, j < i → fieldsTo[j]? = fieldsFrom[j]?) →
      clone.loop fieldsFrom left i fieldsTo = some fieldsFrom := by
  intro left
  induction left with
  | zero =>
    intro i fieldsTo hi hlen hsame
    simp only [clone.loop, Option.some.injEq]
    apply List.ext_getElem?
    intro j
    by_cases hj : j < i
    · exact hsame j hj
    · rw [List.getElem?_eq_none (by omega), List.getElem?_eq_none (by omega)]
  | succ left ih =>
    intro i fieldsTo hi hlen hsame
    have hlt : i < fieldsFrom.length := by omega
    have hget : fieldsFrom[i]? = some fieldsFrom[i] := List.getElem?_eq_getElem hlt
    have hto : i < fieldsTo.length := by omega
    rw [clone.loop]
    simp only [hget, hto, if_true]
    apply ih (i + 1) (fieldsTo.set i fieldsFrom[i]) (by omega) (by simpa using hlen)
    intro j hj
    by_cases hji : j = i
    · subst hji
      rw [List.getElem?_set_self hto, hget]
    · rw [List.getElem?_set_ne (fun h => hji h.symm)]
      exact hsame j (by omega)

/-- C12. For every Entry `e` and every freshly pooled Entry `acquired` whose
field sequence is empty, `clone` returns an Entry whose flags are the flags of
`e` and whose fields are the fields of `e`, element for element. This holds in
the allocate branch (the capacity of the pooled storage is below the number of
fields, no storage is left over) and in the reuse branch (the rest of the
pooled storage stays as spare capacity). `e` is only read. -/
theorem clone_copies_flags_and_fields (e acquired : Entry)
    (hfresh : acquired.LogLetter.Items.Fields = []) :
    ∃ cloned, clone e acquired = some cloned
      ∧ cloned.LogLetter.Items.Flags = e.LogLetter.Items.Flags
      ∧ cloned.LogLetter.Items.Fields = e.LogLetter.Items.Fields
      ∧ cloned.LogLetter.spare
          = (if acquired.LogLetter.spare.length < e.LogLetter.Items.Fields.length then []
             else acquired.LogLetter.spare.drop e.LogLetter.Items.Fields.length) := by
  by_cases hpos : e.LogLetter.Items.Fields.length > 0
  · by_cases hcap : acquired.LogLetter.spare.length < e.LogLetter.Items.Fields.length
    · have hloop := clone.loop_copies e.LogLetter.Items.Fields
        e.LogLetter.Items.Fields.length 0
        (List.replicate e.LogLetter.Items.Fields.length Field.zero) (by omega) (by simp)
        (by intro j hj; omega)
      have hclone : clone e acquired
          = some ⟨⟨acquired.LogLetter.StackTrace,
              ⟨e.LogLetter.Items.Fields, e.LogLetter.Items.Flags⟩, []⟩,
              acquired.ErrLetter, acquired.needSetFinalizer⟩ := by
        unfold clone
        simp only [hpos, if_true, hfresh, List.length_nil, Nat.zero_add, hcap, hloop]
      exact ⟨_, hclone, rfl, rfl, by simp [hcap]⟩
    · have hloop := clone.loop_copies e.LogLetter.Items.Fields
        e.LogLetter.Items.Fields.length 0
        (acquired.LogLetter.spare.take e.LogLetter.Items.Fields.length) (by omega)
        (by rw [List.length_take]; omega) (by intro j hj; omega)
      have hclone : clone e acquired
          = some ⟨⟨acquired.LogLetter.StackTrace,
              ⟨e.LogLetter.Items.Fields, e.LogLetter.Items.Flags⟩,
              acquired.LogLetter.spare.drop e.LogLetter.Items.Fields.length⟩,
              acquired.ErrLetter, acquired.needSetFinalizer⟩ := by
        unfold clone
        simp only [hpos, if_true, hfresh, List.length_nil, Nat.zero_add, hcap, if_false,
          List.nil_append, hloop]
      exact ⟨_, hclone, rfl, rfl, by simp [hcap]⟩
  · have hzero : e.LogLetter.Items.Fields = [] := by
      cases hf : e.LogLetter.Items.Fields with
      | nil => rfl
      | cons x t => rw [hf] at hpos; simp at hpos
    have hclone : clone e acquired
        = some ⟨⟨acquired.LogLetter.StackTrace,
            ⟨acquired.LogLetter.Items.Fields, e.LogLetter.Items.Flags⟩,
            acquired.LogLetter.spare⟩,
            acquired.ErrLetter, acquired.needSetFinalizer⟩ := by
      unfold clone
      simp only [hpos, if_false]
    exact ⟨_, hclone, rfl, by simp [hfresh, hzero], by simp [hzero]⟩

/-- C12, at an Entry of two fields: with a pooled storage of one field a new
storage is allocated, with a pooled storage of three fields it is reused, and
both clones carry the flags and the two fields. -/
theorem clone_copies_flags_and_fields_witness :
    clone ⟨⟨[], ⟨[⟨"a", .int 1⟩, ⟨"b", .int 2⟩], 5⟩, []⟩, none, false⟩
        ⟨⟨[], ⟨[], 0⟩, [Field.zero]⟩, none, true⟩
      = some ⟨⟨[], ⟨[⟨"a", .int 1⟩, ⟨"b", .int 2⟩], 5⟩, []⟩, none, true⟩
    ∧ clone ⟨⟨[], ⟨[⟨"a", .int 1⟩, ⟨"b", .int 2⟩], 5⟩, []⟩, none, false⟩
        ⟨⟨[], ⟨[], 0⟩, [Field.zero, Field.zero, Field.zero]⟩, none, true⟩
      = some ⟨⟨[], ⟨[⟨"a", .int 1⟩, ⟨"b", .int 2⟩], 5⟩, [Field.zero]⟩, none, true⟩
    ∧ ∃ cloned,
        clone ⟨⟨[], ⟨[⟨"a", .int 1⟩, ⟨"b", .int 2⟩], 5⟩, []⟩, none, false⟩
          ⟨⟨[], ⟨[], 0⟩, [Field.zero]⟩, none, true⟩ = some cloned
        ∧ cloned.LogLetter.Items.Flags = 5
        ∧ cloned.LogLetter.Items.Fields = [⟨"a", .int 1⟩, ⟨"b", .int 2⟩]
        ∧ cloned.LogLetter.spare = [] :=
  ⟨by decide, by decide,
   clone_copies_flags_and_fields
     ⟨⟨[], ⟨[⟨"a", .int 1⟩, ⟨"b", .int 2⟩], 5⟩, []⟩, none, false⟩
     ⟨⟨[], ⟨[], 0⟩, [Field.zero]⟩, none, true⟩ rfl⟩

/-! ### The frame cache -/

/-- The first loop of `GetStackTrace2` reads every point from the cache, and
asks for an update when a point is missing. -/
theorem GetStackTrace2.probe_eq (cache : Cache) (framePoints : List Nat) :
    GetStackTrace2.probe cache framePoints
      = (framePoints.map (fun fp => (cache fp).getD StackFrame.zero),
         framePoints.any (fun fp => (cache fp).isNone)) := by
  induction framePoints with
  | nil => rfl
  | cons fp rest ih =>
    rw [GetStackTrace2.probe, ih]
    cases h : cache fp <;> simp [h]

/-- The second and third loops of `GetStackTrace2` after the first: every
point gets the frame `frameFor` describes, and the cache holds that frame under
every captured point and is untouched elsewhere. -/
theorem GetStackTrace2.store_eq (rt : Runtime) (cache0 : Cache) (framePoints : List Nat) :
    ∀ cache : Cache,
      GetStackTrace2.store framePoints
          (GetStackTrace2.resolve rt framePoints
            (framePoints.map (fun fp => (cache0 fp).getD StackFrame.zero))) cache
        = (framePoints.map (GetStackTrace2.frameFor rt cache0),
           fun key => if key ∈ framePoints then some (GetStackTrace2.frameFor rt cache0 key)
                      else cache key) := by
  induction framePoints with
  | nil => intro cache; simp [GetStackTrace2.resolve, GetStackTrace2.store]
  | cons fp rest ih =>
    intro cache
    simp only [List.map_cons, GetStackTrace2.resolve, GetStackTrace2.store, ih]
    refine Prod.ext ?_ ?_
    · simp [GetStackTrace2.frameFor]
    · funext key
      by_cases hrest : key ∈ rest
      · simp [hrest]
      · by_cases hkey : key = fp
        · subst hkey
          simp [hrest, Cache.set, GetStackTrace2.frameFor]
        · simp [hrest, hkey, Cache.set]

/-- The frame `frameFor` gives for a point has that point as its `PC`, when the
cache is valid. -/
theorem GetStackTrace2.frameFor_PC (rt : Runtime) (cache : Cache) (hvalid : cache.Valid)
    (fp : Nat) : (GetStackTrace2.frameFor rt cache fp).PC = fp := by
  have hfmt : ∀ frame : StackFrame, (doFormat rt frame).PC = frame.PC := by
    intro frame
    unfold doFormat
    split <;> rfl
  unfold GetStackTrace2.frameFor
  by_cases hzero : ((cache fp).getD StackFrame.zero).PC = 0
  · simp [hzero, hfmt]
  · cases hc : cache fp with
    | none => rw [hc] at hzero; exact absurd rfl hzero
    | some frame =>
      have hpc : frame.PC = fp := hvalid fp frame hc
      rw [hc] at hzero
      simp only [Option.getD_some] at hzero
      simp only [Option.getD_some, if_neg hzero]
      exact hpc

/-- A call of `GetStackTrace2` that finds every captured point in the cache
returns the cached frames and leaves the cache as it is. -/
theorem GetStackTrace2_hit (rt : Runtime) (cache : Cache) (skip depth : Int)
    (framePoints : List Nat)
    (hpoints : getStackFramePoints rt.stack (max skip (-3) + 1) depth = some framePoints)
    (hall : ∀ fp ∈ framePoints, (cache fp).isNone = false) :
    GetStackTrace2 rt cache skip depth
      = some (framePoints.map (fun fp => (cache fp).getD StackFrame.zero), cache) := by
  have hskip : (if skip < -3 then (-3 : Int) else skip) = max skip (-3) := by
    by_cases h : skip < -3
    · rw [if_pos h, max_eq_right (by omega)]
    · rw [if_neg h, max_eq_left (by omega)]
  have hany : framePoints.any (fun fp => (cache fp).isNone) = false := by
    rw [List.any_eq_false]
    intro fp hfp
    simp [hall fp hfp]
  have hlen := getStackFramePoints_length_le _ _ _ _ hpoints
  rw [← getStackFramePoints_wrapInt rt.stack _ depth (by omega)] at hpoints
  unfold GetStackTrace2
  simp only [hskip, hpoints, hlen, GetStackTrace2.probe_eq, hany, Bool.not_false, if_true]

/-- A call of `GetStackTrace2` that misses the cache for some captured point
returns the frame `frameFor` describes for every point, and writes each of them
to the cache. -/
theorem GetStackTrace2_miss (rt : Runtime) (cache : Cache) (skip depth : Int)
    (framePoints : List Nat)
    (hpoints : getStackFramePoints rt.stack (max skip (-3) + 1) depth = some framePoints)
    (hmiss : framePoints.any (fun fp => (cache fp).isNone) = true) :
    GetStackTrace2 rt cache skip depth
      = some (framePoints.map (GetStackTrace2.frameFor rt cache),
              fun key => if key ∈ framePoints then some (GetStackTrace2.frameFor rt cache key)
                         else cache key) := by
  have hskip : (if skip < -3 then (-3 : Int) else skip) = max skip (-3) := by
    by_cases h : skip < -3
    · rw [if_pos h, max_eq_right (by omega)]
    · rw [if_neg h, max_eq_left (by omega)]
  have hlen := getStackFramePoints_length_le _ _ _ _ hpoints
  rw [← getStackFramePoints_wrapInt rt.stack _ depth (by omega)] at hpoints
  unfold GetStackTrace2
  simp only [hskip, hpoints, hlen, if_true, GetStackTrace2.probe_eq, hmiss, Bool.not_true,
    Bool.false_eq_true, if_false, GetStackTrace2.store_eq]

/-- C15. Frame resolution is memoized by program counter. Let a call of
`GetStackTrace2` capture the points `framePoints`, on a cache whose entries sit
under the `PC` of their frame (as every cache this function filled does). The
call returns one frame for each point; after it every captured point is in the
cache, mapped to the frame returned for it, and the `PC` of that frame is the
point. A following call that captures the same points returns exactly the same
frames and leaves the cache unchanged. -/
theorem GetStackTrace2_memoized (rt : Runtime) (cache : Cache) (skip depth : Int)
    (framePoints : List Nat) (hvalid : cache.Valid)
    (hpoints : getStackFramePoints rt.stack (max skip (-3) + 1) depth = some framePoints) :
    ∃ (stacktrace : StackTrace) (cache' : Cache),
      GetStackTrace2 rt cache skip depth = some (stacktrace, cache')
      ∧ stacktrace.length = framePoints.length
      ∧ (∀ (i fp : Nat), framePoints[i]? = some fp →
          ∃ frame, stacktrace[i]? = some frame ∧ cache' fp = some frame ∧ frame.PC = fp)
      ∧ cache'.Valid
      ∧ (∀ (rt2 : Runtime) (skip2 depth2 : Int),
          getStackFramePoints rt2.stack (max skip2 (-3) + 1) depth2 = some framePoints →
          GetStackTrace2 rt2 cache' skip2 depth2 = some (stacktrace, cache')) := by
  by_cases hmiss : framePoints.any (fun fp => (cache fp).isNone) = true
  · refine ⟨_, _, GetStackTrace2_miss rt cache skip depth framePoints hpoints hmiss,
      by simp, ?_, ?_, ?_⟩
    · intro i fp hi
      have hmem : fp ∈ framePoints := List.getElem?_mem hi
      refine ⟨GetStackTrace2.frameFor rt cache fp, ?_, ?_,
        GetStackTrace2.frameFor_PC rt cache hvalid fp⟩
      · rw [List.getElem?_map, hi]; rfl
      · simp [hmem]
    · intro key frame hkey
      by_cases hmem : key ∈ framePoints
      · simp only [hmem, if_true, Option.some.injEq] at hkey
        rw [← hkey]
        exact GetStackTrace2.frameFor_PC rt cache hvalid key
      · simp only [hmem, if_false] at hkey
        exact hvalid key frame hkey
    · intro rt2 skip2 depth2 hpoints2
      rw [GetStackTrace2_hit rt2 _ skip2 depth2 framePoints hpoints2
        (by intro fp hfp; simp [hfp])]
      congr 2
      apply List.map_congr_left
      intro fp hfp
      simp [hfp]
  · have hall : ∀ fp ∈ framePoints, (cache fp).isNone = false := by
      intro fp hfp
      cases hc : (cache fp).isNone with
      | false => rfl
      | true => exact absurd (List.any_eq_true.mpr ⟨fp, hfp, hc⟩) hmiss
    refine ⟨_, _, GetStackTrace2_hit rt cache skip depth framePoints hpoints hall,
      by simp, ?_, hvalid, ?_⟩
    · intro i fp hi
      have hmem : fp ∈ framePoints := List.getElem?_mem hi
      have hsome := hall fp hmem
      cases hc : cache fp with
      | none => rw [hc] at hsome; exact absurd hsome (by decide)
      | some frame =>
        refine ⟨frame, ?_, rfl, hvalid fp frame hc⟩
        rw [List.getElem?_map, hi]
        simp [hc]
    · intro rt2 skip2 depth2 hpoints2
      exact GetStackTrace2_hit rt2 cache skip2 depth2 framePoints hpoints2 hall

/-- The cache with no entry is valid. -/
theorem Cache.valid_empty : Cache.Valid Cache.empty := by
  intro fp frame h
  simp [Cache.empty] at h

/-- C15, on the stack of the tests with the empty cache: `GetStackTrace2(0, 0)`
captures the points 4 and 5, and the statement holds for this call. -/
theorem GetStackTrace2_memoized_witness :
    getStackFramePoints sampleRuntime.stack (max 0 (-3) + 1) 0 = some [4, 5]
    ∧ ∃ (stacktrace : StackTrace) (cache' : Cache),
      GetStackTrace2 sampleRuntime Cache.empty 0 0 = some (stacktrace, cache')
      ∧ stacktrace.length = [4, 5].length
      ∧ (∀ (i fp : Nat), [4, 5][i]? = some fp →
          ∃ frame, stacktrace[i]? = some frame ∧ cache' fp = some frame ∧ frame.PC = fp)
      ∧ cache'.Valid
      ∧ (∀ (rt2 : Runtime) (skip2 depth2 : Int),
          getStackFramePoints rt2.stack (max skip2 (-3) + 1) depth2 = some [4, 5] →
          GetStackTrace2 rt2 cache' skip2 depth2 = some (stacktrace, cache')) :=
  ⟨by decide,
   GetStackTrace2_memoized sampleRuntime Cache.empty 0 0 [4, 5] Cache.valid_empty
     (by decide)⟩


end Ekago
